import Mathlib

/-!
Verification of the commission/VAT service (komisyonlarv2).

Shallow embedding of the Python sources:
  * `src/calculators/kdv.py`  — decimal VAT arithmetic (add/remove/derive,
    withholding parsing, 2-decimal quantisation with half-even / half-up);
  * `src/calculators/api.py`  — the structured success/failure wrapper;
  * `src/app.py`              — marketplace service: normalisation
    (`_normalize_to_flat4`, `normalize_api_item`), scale fixing
    (`_fix_scale`), hot reload (`refresh_if_changed`), ranked search
    (`search_products`), product-group aggregation (`list_pg_commissions`)
    and the payout/profit calculator (`calculate_commission`).

Modelling conventions: Python `Decimal`/`float` values are embedded as `ℚ`
(the 28-significant-digit context of `Decimal` and binary-double artifacts
are not modelled; every claim here is decided at 2-decimal quantisation
where the two agree on the inputs considered).  A missing value / `None` /
`NaN` cell is `Option.none`.  A raised Python exception is an `Except`
error value.  Strings are Lean `String`s; Turkish folding and Python
`str.lower` are modelled character-for-character for the repertoire the
data uses (Python lowers 'İ' to the two code points i + combining dot).
-/

/-! ## Rounding: `Decimal.quantize` to 2 places (`_q2` in kdv.py) -/

/-- Round to nearest integer, ties to even (`ROUND_HALF_EVEN`).
`Rat.floor` (not `Int.floor`) keeps the definition kernel-computable. -/
def roundHalfEven (x : ℚ) : ℤ :=
  if x - x.floor < 1/2 then x.floor
  else if 1/2 < x - x.floor then x.floor + 1
  else if x.floor % 2 = 0 then x.floor else x.floor + 1

/-- Round to nearest integer, ties away from zero (`ROUND_HALF_UP`). -/
def roundHalfUp (x : ℚ) : ℤ :=
  if 0 ≤ x then (x + 1/2).floor else -(-x + 1/2).floor

/-- Mode dispatch of `_q2`: "even"/"half_even" select half-even, every other
mode string selects half-up (kdv.py line 11). -/
def roundInt (mode : String) (x : ℚ) : ℤ :=
  if mode = "even" ∨ mode = "half_even" then roundHalfEven x else roundHalfUp x

/-- Definition `_q2`: quantise to two decimal places under the given mode. -/
def q2 (x : ℚ) (mode : String) : ℚ :=
  (roundInt mode (100 * x) : ℚ) / 100

/-! ## String helpers: Turkish folding, Python lower/strip, substring -/

/-- Functions `_normalize_turkish` / `_ascii_tr`: fold the 12 Turkish letters to
their ASCII base (the sequential `str.replace` chain is equivalent to this
single character map because no replacement image is a later source). -/
def trFoldChar (c : Char) : Char :=
  if c = 'ğ' then 'g' else if c = 'Ğ' then 'G'
  else if c = 'ü' then 'u' else if c = 'Ü' then 'U'
  else if c = 'ş' then 's' else if c = 'Ş' then 'S'
  else if c = 'ı' then 'i' else if c = 'İ' then 'I'
  else if c = 'ö' then 'o' else if c = 'Ö' then 'O'
  else if c = 'ç' then 'c' else if c = 'Ç' then 'C' else c

def normalizeTurkish (s : String) : String := ⟨s.data.map trFoldChar⟩

/-- Python `str.lower` restricted to the repertoire appearing in the data:
ASCII letters plus the Turkish uppercase letters.  `'İ'.lower()` is the
two-code-point sequence i + U+0307 in Python. -/
def pyLowerChar (c : Char) : List Char :=
  if c = 'İ' then ['i', '̇']
  else if c = 'Ç' then ['ç'] else if c = 'Ğ' then ['ğ']
  else if c = 'Ö' then ['ö'] else if c = 'Ş' then ['ş']
  else if c = 'Ü' then ['ü']
  else if 'A' ≤ c ∧ c ≤ 'Z' then [Char.ofNat (c.toNat + 32)]
  else [c]

def pyLower (s : String) : String := ⟨(s.data.map pyLowerChar).flatten⟩

def isPySpace (c : Char) : Bool :=
  c = ' ' || c = '\t' || c = '\n' || c = '\r' || c = '\x0b' || c = '\x0c'

/-- Python `str.strip()`. -/
def pyStrip (s : String) : String :=
  ⟨((s.data.dropWhile isPySpace).reverse.dropWhile isPySpace).reverse⟩

/-- Python's `needle in hay` substring test. -/
def listContains (hay needle : List Char) : Bool :=
  hay.tails.any (fun t => needle.isPrefixOf t)

def strContains (hay needle : String) : Bool := listContains hay.data needle.data

/-- Code-point lexicographic `≤` on character lists (Python string order). -/
def lexLeB : List Char → List Char → Bool
  | [], _ => true
  | _ :: _, [] => false
  | a :: as, b :: bs => if a < b then true else if a = b then lexLeB as bs else false

/-- Code-point lexicographic `<` on character lists (Python string order). -/
def lexLtB : List Char → List Char → Bool
  | [], [] => false
  | [], _ :: _ => true
  | _ :: _, [] => false
  | a :: as, b :: bs => if a < b then true else if a = b then lexLtB as bs else false

/-! ## Decimal-literal parsing (the subset of `Decimal(str)` used here) -/

def digitsToNat (l : List Char) : ℕ :=
  l.foldl (fun acc c => acc * 10 + (c.toNat - 48)) 0

def allDigits (l : List Char) : Bool := l.all Char.isDigit

/-- Unsigned decimal literal: digits with an optional decimal point
(Python `Decimal` also accepts exponent/special forms, unused here). -/
def parseDecDigits (l : List Char) : Option ℚ :=
  let ip := l.takeWhile (fun c => c ≠ '.')
  match l.dropWhile (fun c => c ≠ '.') with
  | [] => if allDigits ip ∧ ip ≠ [] then some (digitsToNat ip) else none
  | _ :: fp =>
    if allDigits fp ∧ '.' ∉ fp ∧ (ip ≠ [] ∨ fp ≠ []) then
      some ((digitsToNat ip : ℚ) + (digitsToNat fp : ℚ) / (10 : ℚ) ^ fp.length)
    else none

/-- Python `Decimal(s)` on an already-whitespace-free string: optional sign then
an unsigned decimal literal; anything else raises `InvalidOperation`. -/
def parseDec (l : List Char) : Option ℚ :=
  match l with
  | '+' :: rest => parseDecDigits rest
  | '-' :: rest => (parseDecDigits rest).map (fun q => -q)
  | _ => parseDecDigits l

/-! ## kdv.py: the VAT calculator -/

/-- Python exceptions surfaced by the decimal layer. -/
inductive PyErr where
  | divisionByZero
  | invalidOperation
deriving DecidableEq, Repr

instance instDecidableEqExcept {ε α : Type} [DecidableEq ε] [DecidableEq α] :
    DecidableEq (Except ε α) := fun x y => by
  cases x <;> cases y
  case error.error a b =>
    exact decidable_of_iff (a = b) ⟨fun h => by rw [h], fun h => by injection h⟩
  case error.ok a b => exact isFalse (fun hc => Except.noConfusion hc)
  case ok.error a b => exact isFalse (fun hc => Except.noConfusion hc)
  case ok.ok a b =>
    exact decidable_of_iff (a = b) ⟨fun h => by rw [h], fun h => by injection h⟩

/-- Function `_norm_rate`: rate inputs ≥ 1 are whole percent, below 1 used as-is. -/
def normRate (r : ℚ) : ℚ := if 1 ≤ r then r / 100 else r

def clamp01 (x : ℚ) : ℚ := min 1 (max 0 x)

/-- Function `_parse_withholding` (kdv.py lines 18-30).  The input is the already
`str(...)`-converted argument; `None` is `none`.  Note the denominator is
compared as the literal string "0" before any numeric conversion. -/
def parseWithholding (w : Option String) : Except PyErr ℚ :=
  match w with
  | none => .ok 0
  | some ws =>
    let s := (pyStrip ws).data.filter (fun c => c ≠ ' ')
    if '/' ∈ s then
      let a := s.takeWhile (fun c => c ≠ '/')
      let b := (s.dropWhile (fun c => c ≠ '/')).tail
      if b = ['0'] then .ok 0
      else
        match parseDec a, parseDec b with
        | some qa, some qb =>
          if qb = 0 then .error .divisionByZero else .ok (clamp01 (qa / qb))
        | _, _ => .error .invalidOperation
    else
      match parseDec s with
      | none => .error .invalidOperation
      | some v =>
        let v1 := if 1 < v then v / 100 else v
        let v2 := if v1 < 0 then (0 : ℚ) else v1
        .ok (if 1 < v2 then 1 else v2)

structure KDVResult where
  price_excl_vat : ℚ
  vat_amount : ℚ
  price_incl_vat : ℚ
  rate : ℚ
  withholding_rate : ℚ
  withholding_amount : ℚ
  payable_vat : ℚ
deriving DecidableEq, Repr

/-- Function `add_vat` (kdv.py lines 42-53). -/
def add_vat (price_excl_vat rate : ℚ) (withholding_rate : Option String)
    (rounding : String) : Except PyErr KDVResult :=
  let net := price_excl_vat
  let oran := normRate rate
  let kdv := q2 (net * oran) rounding
  let brut := q2 (net + kdv) rounding
  match parseWithholding withholding_rate with
  | .error e => .error e
  | .ok tw =>
    let tevkifat := q2 (kdv * tw) rounding
    let payable := q2 (kdv - tevkifat) rounding
    .ok ⟨q2 net rounding, kdv, brut, oran, tw, tevkifat, payable⟩

/-- Function `remove_vat` (kdv.py lines 55-67).  `Decimal` division by zero (rate
normalising to -1) raises, modelled as an error value. -/
def remove_vat (price_incl_vat rate : ℚ) (withholding_rate : Option String)
    (rounding : String) : Except PyErr KDVResult :=
  let brut0 := price_incl_vat
  let oran := normRate rate
  if 1 + oran = 0 then .error .divisionByZero
  else
    let net := q2 (brut0 / (1 + oran)) rounding
    let kdv := q2 (brut0 - net) rounding
    let brut := q2 brut0 rounding
    match parseWithholding withholding_rate with
    | .error e => .error e
    | .ok tw =>
      let tevkifat := q2 (kdv * tw) rounding
      let payable := q2 (kdv - tevkifat) rounding
      .ok ⟨net, kdv, brut, oran, tw, tevkifat, payable⟩

/-- Function `from_vat_amount` (kdv.py lines 69-80): the division `kdv / oran`
raises `DivisionByZero` when the normalised rate is zero, before the
withholding argument is even parsed. -/
def from_vat_amount (vat_amount rate : ℚ) (withholding_rate : Option String)
    (rounding : String) : Except PyErr KDVResult :=
  let kdv := q2 vat_amount rounding
  let oran := normRate rate
  if oran = 0 then .error .divisionByZero
  else
    let net := q2 (kdv / oran) rounding
    let brut := q2 (net + kdv) rounding
    match parseWithholding withholding_rate with
    | .error e => .error e
    | .ok tw =>
      let tevkifat := q2 (kdv * tw) rounding
      let payable := q2 (kdv - tevkifat) rounding
      .ok ⟨net, kdv, brut, oran, tw, tevkifat, payable⟩

/-- The add-then-remove round trip of kdv.py, reporting the recovered net
(`none` if either direction raised). -/
def vatRoundtrip (price rate : ℚ) (rounding : String) : Option ℚ :=
  match add_vat price rate none rounding with
  | .ok a =>
    match remove_vat a.price_incl_vat rate none rounding with
    | .ok b => some b.price_excl_vat
    | .error _ => none
  | .error _ => none

/-! ## calculators/api.py: structured success/failure wrapper -/

structure ApiReq where
  direction : String
  price : Option ℚ
  vatAmount : Option ℚ
  rate : ℚ
  withholdingRate : Option String
  rounding : String

structure ApiResp where
  success : Bool
  data : Option KDVResult
deriving DecidableEq, Repr

/-- Handler `api_calc_kdv` (calculators/api.py lines 24-49): every exception from
the calculator is caught and returned as a success=false payload; a
missing price / vatAmount key raises `KeyError`, likewise caught. -/
def api_calc_kdv (d : ApiReq) : ApiResp :=
  let direction := pyLower d.direction
  if direction = "add" then
    match d.price with
    | none => ⟨false, none⟩
    | some p =>
      match add_vat p d.rate d.withholdingRate d.rounding with
      | .ok res => ⟨true, some res⟩
      | .error _ => ⟨false, none⟩
  else if direction = "remove" then
    match d.price with
    | none => ⟨false, none⟩
    | some p =>
      match remove_vat p d.rate d.withholdingRate d.rounding with
      | .ok res => ⟨true, some res⟩
      | .error _ => ⟨false, none⟩
  else if direction = "from_vat" ∨ direction = "from_kdv" then
    match d.vatAmount with
    | none => ⟨false, none⟩
    | some va =>
      match from_vat_amount va d.rate d.withholdingRate d.rounding with
      | .ok res => ⟨true, some res⟩
      | .error _ => ⟨false, none⟩
  else ⟨false, none⟩

/-! ## app.py: the marketplace service -/

/-- A commission cell as `list_pg_commissions` sees it after its own
conversion step (`val = None` for `None`/empty string, `float(val)`
otherwise): Python `None` (also covering the empty strings that
`fillna("")` leaves in the non-canonical pipeline), the float `nan`
that `pd.to_numeric(..., errors="coerce")` produces in the canonical
4-column branch of `_load_csv_normalized` (app.py line 503), or an
ordinary number.  `nan` must stay distinct from `None`: `(nan or 0.0)`
is `nan` (truthy) and every `<`/`>` comparison against it is False. -/
inductive PyNum where
  | none
  | nan
  | num (v : ℚ)
deriving DecidableEq, Repr

/-- One normalised dataset row: the four canonical columns `Kategori`,
`Alt Kategori`, `Ürün Grubu`, `Komisyon_%_KDV_Dahil`. -/
structure Row where
  kategori : String
  altKategori : String
  urunGrubu : String
  komisyon : PyNum
deriving DecidableEq, Repr

/-! ### search_products (app.py lines 558-591) -/

/-- The query preparation `_normalize_turkish(str(query or "").lower()).strip()`. -/
def foldQuery (query : String) : String := pyStrip (normalizeTurkish (pyLower query))

def rowCatFold (r : Row) : String := normalizeTurkish (pyLower r.kategori)

def rowSubFold (r : Row) : String := normalizeTurkish (pyLower r.altKategori)

def rowGrpFold (r : Row) : String := normalizeTurkish (pyLower r.urunGrubu)

def rowMatches (q : String) (r : Row) : Bool :=
  strContains (rowCatFold r) q || strContains (rowSubFold r) q ||
    strContains (rowGrpFold r) q

/-- Source line `priority = 0 if in_cat else (1 if in_sub else 2)`. -/
def rowPriority (q : String) (r : Row) : ℕ :=
  if strContains (rowCatFold r) q then 0
  else if strContains (rowSubFold r) q then 1 else 2

/-- Sort key `path_for_sort`: the displayed path, lower-cased (and only lower-cased:
no Turkish folding here). -/
def pathForSort (r : Row) : String :=
  pyLower (r.kategori ++ " → " ++ r.altKategori ++ " → " ++ r.urunGrubu)

/-- The displayed path `category → subCategory → productGroup` as the spec
writes it (no case folding): the claimed tie-break key. -/
def displayedPath (r : Row) : String :=
  r.kategori ++ " → " ++ r.altKategori ++ " → " ++ r.urunGrubu

/-- Python's stable sort on the key tuple `(priority, path_for_sort)`. -/
def searchLe (q : String) (a b : Row) : Prop :=
  rowPriority q a < rowPriority q b ∨
    (rowPriority q a = rowPriority q b ∧
      lexLeB (pathForSort a).data (pathForSort b).data = true)

instance searchLeDecidable (q : String) : DecidableRel (searchLe q) := fun _ _ =>
  inferInstanceAs (Decidable (_ ∨ _))

/-- Method `search_products`: empty folded query returns the rows untouched;
otherwise filter by folded-substring match and stable-sort by
`(priority, lower-cased displayed path)`. -/
def search_products (rows : List Row) (query : String) : List Row :=
  let q := foldQuery query
  if q = "" then rows
  else List.insertionSort (searchLe q) (rows.filter (rowMatches q))

/-! ### list_pg_commissions (app.py lines 619-656) -/

structure PgEntry where
  productGroup : String
  commissionPercent : PyNum
  commissionText : String
deriving DecidableEq, Repr

/-- Formatter `fmt`: `f"{float(val):.2f}%".replace(".", ",")`, empty for a
missing value; `f"{nan:.2f}"` is the text "nan". -/
def fmtPercent : PyNum → String
  | .none => ""
  | .nan => "nan%"
  | .num v =>
    let c := roundHalfEven (100 * v)
    let a := c.natAbs
    (if c < 0 then "-" else "") ++ toString (a / 100) ++ "," ++
      (if a % 100 < 10 then "0" else "") ++ toString (a % 100) ++ "%"

def mkPgEntry (pg : String) (val : PyNum) : PgEntry := ⟨pg, val, fmtPercent val⟩

/-- The numeric value of `(val or 0.0)` when no NaN is involved (for a
NaN operand the Python comparison never looks at a number: see
`pyGtB`); `nan` is mapped to an arbitrary 0 here and the aggregation
theorem is stated under a no-NaN hypothesis. -/
def valOr0 (v : PyNum) : ℚ :=
  match v with
  | .num x => x
  | _ => 0

/-- The replacement test `(val or 0.0) > (current.get("commissionPercent")
or 0.0)` of `list_pg_commissions`: `None` reads as 0.0, but `nan` is
truthy, survives the `or`, and makes the comparison False whichever side
it is on. -/
def pyGtB (val cur : PyNum) : Bool :=
  match val, cur with
  | .nan, _ => false
  | _, .nan => false
  | v, c => decide (valOr0 c < valOr0 v)

def pgOf (r : Row) : String := pyStrip r.urunGrubu

/-- Row retained by the aggregation: non-empty stripped product group that
contains the folded query. -/
def pgPass (nq : String) (r : Row) : Bool :=
  pgOf r ≠ "" && (nq = "" || strContains (normalizeTurkish (pyLower (pgOf r))) nq)

def pgLookup (seen : List PgEntry) (pg : String) : Option PgEntry :=
  seen.find? (fun e => e.productGroup == pg)

/-- One iteration of the `seen` dict update: a later row replaces the kept
entry only when `(val or 0.0) > (current or 0.0)` — which, because of
NaN, is not simply "strictly greater": see `pyGtB`. -/
def pgStep (nq : String) (seen : List PgEntry) (r : Row) : List PgEntry :=
  if ¬ pgPass nq r then seen
  else
    let pg := pgOf r
    match pgLookup seen pg with
    | none => seen ++ [mkPgEntry pg r.komisyon]
    | some cur =>
      if pyGtB r.komisyon cur.commissionPercent then
        seen.map (fun e => if e.productGroup = pg then mkPgEntry pg r.komisyon else e)
      else seen

/-- Source line `sorted(..., key=lambda x: x["productGroup"].lower())`. -/
def pgLe (e1 e2 : PgEntry) : Prop :=
  lexLeB (pyLower e1.productGroup).data (pyLower e2.productGroup).data = true

instance pgLeDecidable : DecidableRel pgLe := fun _ _ =>
  inferInstanceAs (Decidable (_ = true))

/-- Source line `norm_q = self._normalize_turkish(q.lower()) if q else ""`. -/
def pgQueryFold (q : String) : String :=
  if q = "" then "" else normalizeTurkish (pyLower q)

def list_pg_commissions (rows : List Row) (q : String) : List PgEntry :=
  List.insertionSort pgLe (rows.foldl (pgStep (pgQueryFold q)) [])

/-- The entry kept for a product group: produced by a passing row `r`
whose `(val or 0.0)` commission strictly exceeds every EARLIER passing row
of the same group and is at least every LATER one — i.e. the first row
attaining the group's maximum, which is exactly the "a later row replaces
the kept one only when strictly greater" policy. -/
def pgBest (nq : String) (rows : List Row) (e : PgEntry) : Prop :=
  ∃ l₁ r l₂, rows = l₁ ++ r :: l₂ ∧ pgPass nq r = true ∧
    pgOf r = e.productGroup ∧ e = mkPgEntry (pgOf r) r.komisyon ∧
    (∀ r2 ∈ l₁, pgPass nq r2 = true → pgOf r2 = e.productGroup →
      valOr0 r2.komisyon < valOr0 r.komisyon) ∧
    (∀ r2 ∈ l₂, pgPass nq r2 = true → pgOf r2 = e.productGroup →
      valOr0 r2.komisyon ≤ valOr0 r.komisyon)

/-! ### _fix_scale and the pandas 0.95 quantile (app.py lines 448-452) -/

/-- pandas `Series.quantile(0.95)` with linear interpolation, on the
non-missing values. -/
def quantile95 (v : List ℚ) : ℚ :=
  let s := List.insertionSort (fun a b : ℚ => a ≤ b) v
  let n := s.length
  if n = 0 then 0
  else
    let h : ℚ := (19 * ((n : ℚ) - 1)) / 20
    let i := h.floor.toNat
    let x0 := s.getD i 0
    let x1 := s.getD (i + 1) x0
    x0 + (h - (i : ℚ)) * (x1 - x0)

/-- Method `_fix_scale`: multiply the whole column by 100 when there is at least
one non-missing value and the 95th percentile is ≤ 1.0. -/
def fix_scale (c : List (Option ℚ)) : List (Option ℚ) :=
  let v := c.reduceOption
  if v.length ≠ 0 ∧ quantile95 v ≤ 1 then c.map (Option.map (fun x => x * 100)) else c

/-- Reading of "already on the 0-100 percent scale": every non-missing value lies in
[0, 100] (the reading of the claim's hypothesis). -/
def onPercentScale (c : List (Option ℚ)) : Prop :=
  ∀ x ∈ c.reduceOption, 0 ≤ x ∧ x ≤ 100

instance (c : List (Option ℚ)) : Decidable (onPercentScale c) :=
  inferInstanceAs (Decidable (∀ x ∈ c.reduceOption, 0 ≤ x ∧ x ≤ 100))

/-! ### Column resolution / _normalize_to_flat4 (app.py lines 339-508) -/

/-- Per-marketplace candidate column names (`columns_candidates`). -/
structure Candidates where
  category : List String
  sub_category : List String
  product_group : List String
  commission : List String

def trendyolCands : Candidates :=
  ⟨["Ana Kategori", "Kategori"], ["Kategori", "Alt Kategori"],
   ["Ürün Grubu", "Urun Grubu", "Urun_Grubu"], ["Komisyon_%_KDV_Dahil", "komisyon"]⟩

def hepsiburadaCands : Candidates :=
  ⟨["Ana Kategori", "Kategori"], ["Kategori", "Alt Kategori"],
   ["Ürün Grubu", "Urun Grubu", "Urun_Grubu"],
   ["Komisyon_%_KDV_Dahil", "Uygulanan_Komisyon_%_KDV_Dahil", "komisyon"]⟩

def n11Cands : Candidates :=
  ⟨["Kategori", "Ana Kategori"], ["Alt Kategori", "Kategori"],
   ["Ürün Grubu", "Urun Grubu", "Urun_Grubu"], ["Komisyon_%_KDV_Dahil", "komisyon"]⟩

def amazonCands : Candidates :=
  ⟨["Kategori"], ["Alt Kategori"], ["Ürün Grubu", "Kategori"],
   ["Komisyon_%_KDV_Dahil", "Satış Komisyonu (+KDV)"]⟩

def ciceksepetiCands : Candidates :=
  ⟨["Kategori", "Ana Kategori"], ["Alt Kategori", "Kategori"],
   ["Ürün Grubu", "Kategori"],
   ["Komisyon_%_KDV_Dahil", "Komisyon Oranı", "Revize Komisyon Oranı"]⟩

def pttavmCands : Candidates :=
  ⟨["Kategori", "Ana Kategori"], ["Alt Kategori"],
   ["Ürün Grubu", "Alt Kategori", "Kategori"],
   ["Komisyon_%_KDV_Dahil", "Komisyon", "Komisyon Oranları"]⟩

/-- Method `_pick_first_present`: first candidate name present among the table's
columns. -/
def pick_first_present (cols : List String) (cands : List String) : Option String :=
  cands.find? (fun c => cols.contains c)

/-- Which source column feeds each canonical output column.  `altFrom =
none` means the constant empty `Alt Kategori` column of the else-branch. -/
structure Flat4Binding where
  katFrom : String
  altFrom : Option String
  grpFrom : String
  comFrom : Option String
deriving DecidableEq, Repr

/-- The column-binding logic of `_normalize_to_flat4` (app.py lines
460-479): purely a function of the column-name list. -/
def resolveBinding (cands : Candidates) (cols : List String) : Except String Flat4Binding :=
  let cat_col := (pick_first_present cols cands.category).getD ""
  let sub_col := (pick_first_present cols cands.sub_category).getD ""
  let grp_col := (pick_first_present cols cands.product_group).getD ""
  let com_col := (pick_first_present cols cands.commission).getD ""
  if grp_col = "" then .error "urun grubu kolonu bulunamadi"
  else if cat_col = "" ∧ sub_col = "" then .error "kategori kolonlari bulunamadi"
  else if cat_col ≠ "" ∧ sub_col ≠ "" ∧ cat_col ≠ sub_col then
    .ok ⟨cat_col, some sub_col, grp_col, if com_col = "" then none else some com_col⟩
  else
    .ok ⟨(if cat_col ≠ "" then cat_col else sub_col), none, grp_col,
         if com_col = "" then none else some com_col⟩

/-- A raw source table: ordered column names plus the cell column (as
strings, after pandas `astype(str)`) for each name. -/
structure RawTable where
  cols : List String
  col : String → List String

/-- Method `_extract_number`: strip, comma to dot, then the first decimal number
in the text. -/
def extract_number (x : String) : Option ℚ :=
  let rec firstNum : List Char → Option ℚ
    | [] => none
    | c :: rest =>
      if c.isDigit then
        let ip := (c :: rest).takeWhile Char.isDigit
        let after := (c :: rest).dropWhile Char.isDigit
        match after with
        | '.' :: d :: _ =>
          if d.isDigit then
            let fp := (after.tail).takeWhile Char.isDigit
            some ((digitsToNat ip : ℚ) + (digitsToNat fp : ℚ) / (10 : ℚ) ^ fp.length)
          else some (digitsToNat ip)
        | _ => some (digitsToNat ip)
      else firstNum rest
  firstNum ((pyStrip x).data.map (fun c => if c = ',' then '.' else c))

/-- A NaN cell of the normalised frame as the service stores it: this
pipeline's caller (`_load_csv_normalized`, non-canonical branch) runs
`fillna("")` on the `_normalize_to_flat4` output, and the empty string
reads back as `None` in the query layer. -/
def toPyNum : Option ℚ → PyNum
  | none => .none
  | some v => .num v

def zip4Rows : List String → List String → List String → List (Option ℚ) → List Row
  | a :: as, b :: bs, c :: cs, d :: ds => ⟨a, b, c, toPyNum d⟩ :: zip4Rows as bs cs ds
  | _, _, _, _ => []

/-- Pandas `drop_duplicates`: keep the first occurrence of each full row. -/
def dedupFirst {α : Type} [DecidableEq α] (l : List α) : List α :=
  l.foldl (fun acc r => if r ∈ acc then acc else acc ++ [r]) []

/-- Method `_normalize_to_flat4` (app.py lines 460-493). -/
def normalize_to_flat4 (cands : Candidates) (t : RawTable) : Except String (List Row) :=
  match resolveBinding cands t.cols with
  | .error e => .error e
  | .ok b =>
    let n := (t.col b.grpFrom).length
    let kat := (t.col b.katFrom).map pyStrip
    let alt := match b.altFrom with
      | some c => (t.col c).map pyStrip
      | none => List.replicate n ""
    let grp := (t.col b.grpFrom).map pyStrip
    let kom := match b.comFrom with
      | some c => fix_scale ((t.col c).map extract_number)
      | none => List.replicate n none
    let rows := zip4Rows kat alt grp kom
    .ok (dedupFirst (rows.filter
      (fun r => r.kategori ≠ "" || r.altKategori ≠ "" || r.urunGrubu ≠ "")))

/-! ### normalize_api_item key binding (app.py lines 71-112) -/

/-- The regex `^[a-zA-Z][a-zA-Z0-9]*$` ("already camelCase"). -/
def isCamelKey (s : String) : Bool :=
  match s.data with
  | [] => false
  | c :: rest => c.isAlpha && rest.all (fun d => d.isAlpha || d.isDigit)

def pyUpperChar (c : Char) : Char :=
  if c = 'ç' then 'Ç' else if c = 'ğ' then 'Ğ' else if c = 'ö' then 'Ö'
  else if c = 'ş' then 'Ş' else if c = 'ü' then 'Ü' else if c = 'ı' then 'I'
  else if 'a' ≤ c ∧ c ≤ 'z' then Char.ofNat (c.toNat - 32) else c

/-- Python `str.capitalize()`: first character upper, the rest lower. -/
def capitalizePy (l : List Char) : List Char :=
  match l with
  | [] => []
  | c :: rest => pyUpperChar c :: (rest.map pyLowerChar).flatten

def isAlnumA (c : Char) : Bool := c.isAlpha || c.isDigit

/-- Function `_to_camel_from_any` (app.py lines 50-58). -/
def to_camel_from_any (s : String) : String :=
  let s2 := normalizeTurkish s
  let parts := (List.splitOnP (fun c => !isAlnumA c) (pyStrip s2).data).filter
    (fun p => p ≠ [])
  match parts with
  | [] => s2
  | first :: rest =>
    ⟨(first.map pyLowerChar).flatten ++ (rest.map capitalizePy).flatten⟩

/-- The key-binding chain of `normalize_api_item` (app.py lines 88-112):
`hasAna`/`hasAlt` record whether the raw item carries an "Ana Kategori" /
"Alt Kategori" key. -/
def normApiKey (hasAna hasAlt : Bool) (k : String) : String :=
  if k = "Kategori" then (if hasAna && !hasAlt then "subCategory" else "category")
  else if k = "Ana Kategori" then "category"
  else if k = "Alt Kategori" then "subCategory"
  else if k = "Ürün Grubu" ∨ k = "Urun Grubu" ∨ k = "Urun_Grubu" then "productGroup"
  else if k = "Komisyon_%_KDV_Dahil" ∨ k = "Uygulanan_Komisyon_%_KDV_Dahil" then
    "commissionPercent"
  else if k = "komisyon" then "commissionText"
  else if isCamelKey k then k
  else to_camel_from_any k

/-- Function `normalize_api_item` on an item's key list: every key is renamed with
the presence flags computed from the whole item. -/
def normalizeApiItemKeys (keys : List String) : List String :=
  keys.map (normApiKey (keys.contains "Ana Kategori") (keys.contains "Alt Kategori"))

/-! ### refresh_if_changed (app.py lines 511-525), per marketplace -/

/-- State of one marketplace's backing file at refresh time: missing, or
present with a modification time and the outcome `_load_csv_normalized`
would produce (an exception is `.error`). -/
inductive FileStatus where
  | missing
  | present (mtime : ℚ) (load : Except String (List Row))

/-- The service's per-marketplace mutable state: `_mtimes[key]` and
`_data[key]`. -/
structure MpState where
  mtime : ℚ
  rows : List Row
deriving DecidableEq, Repr

/-- One iteration of the `refresh_if_changed` loop for one marketplace;
the Bool is this marketplace's contribution to `changed`.  A missing file
empties the data; a failed load leaves state untouched (the `except`
branch only logs); mtime is recorded only after a successful load. -/
def refresh_one (force : Bool) (fs : FileStatus) (st : MpState) : MpState × Bool :=
  match fs with
  | .missing => ({ st with rows := [] }, false)
  | .present m load =>
    if force ∨ m ≠ st.mtime then
      match load with
      | .ok rows => (⟨m, rows⟩, true)
      | .error _ => (st, false)
    else (st, false)

/-! ### calculate_commission (app.py lines 659-748) -/

structure CommissionParams where
  salePrice : ℚ
  buyPrice : ℚ
  cargoPrice : ℚ
  vatPercent : ℚ
  commissionPercent : ℚ
  servicePercent : ℚ
  exportPercent : ℚ
  includeVatDeduction : Bool
deriving DecidableEq, Repr

structure CommissionResult where
  payout : ℚ
  netProfit : ℚ
  profitMargin : ℚ
  netMargin : ℚ
  detailedProfitNet : ℚ
  commissionAmount : ℚ
  serviceAmount : ℚ
  exportAmount : ℚ
  cargoDeduction : ℚ
  saleVat : ℚ
  buyVat : ℚ
  commVat : ℚ
  servVat : ℚ
  expVat : ℚ
  inputVat : ℚ
  vatPayable : ℚ
  error : Option String
deriving DecidableEq, Repr

/-- Method `_extract_vat_share`: the VAT share embedded in a VAT-inclusive gross,
`gross * rate/(100+rate)`; zero (with no division at all) unless the rate
is strictly positive. -/
def extract_vat_share (gross vat_percent : ℚ) : ℚ :=
  if 0 < vat_percent then gross * (vat_percent / (100 + vat_percent)) else 0

/-- Python `round(x, 2)` (banker's rounding; binary-double artifacts are
outside the model). -/
def pyRound2 (x : ℚ) : ℚ := ((roundHalfEven (100 * x) : ℚ)) / 100

def empty_calc_result (msg : String) : CommissionResult :=
  ⟨0, 0, 0, 0, 0, 0, 0, 0, 0, 0, 0, 0, 0, 0, 0, 0, some msg⟩

/-- Method `calculate_commission` (app.py lines 659-741). -/
def calculate_commission (p : CommissionParams) : CommissionResult :=
  if p.salePrice ≤ 0 then empty_calc_result "Satis fiyati 0 dan buyuk olmalidir"
  else
    let commission_amount := p.salePrice * p.commissionPercent / 100
    let service_amount := p.salePrice * p.servicePercent / 100
    let export_amount := p.salePrice * p.exportPercent / 100
    let cargo_deduction := p.cargoPrice
    let payout := p.salePrice -
      (commission_amount + service_amount + export_amount + cargo_deduction)
    let net_profit := payout - p.buyPrice
    let profit_margin := if 0 < p.salePrice then net_profit / p.salePrice * 100 else 0
    let sale_vat := extract_vat_share p.salePrice p.vatPercent
    let buy_vat := extract_vat_share p.buyPrice p.vatPercent
    let comm_vat := extract_vat_share commission_amount p.vatPercent
    let serv_vat := extract_vat_share service_amount p.vatPercent
    let exp_vat := extract_vat_share export_amount p.vatPercent
    let input_vat := buy_vat +
      (if p.includeVatDeduction then comm_vat + serv_vat + exp_vat else 0)
    let vat_payable := max (sale_vat - input_vat) 0
    ⟨pyRound2 payout, pyRound2 net_profit, pyRound2 profit_margin,
     pyRound2 profit_margin, pyRound2 net_profit, pyRound2 commission_amount,
     pyRound2 service_amount, pyRound2 export_amount, pyRound2 cargo_deduction,
     pyRound2 sale_vat, pyRound2 buy_vat, pyRound2 comm_vat, pyRound2 serv_vat,
     pyRound2 exp_vat, pyRound2 input_vat, pyRound2 vat_payable, none⟩

/-- The divisor of the single division `_extract_vat_share` evaluates
(empty when the zero-branch is taken and no division happens). -/
def vatShareDivisors (vat_percent : ℚ) : List ℚ :=
  if 0 < vat_percent then [100 + vat_percent] else []

/-- Every divisor `calculate_commission` evaluates, in source order: the
three constant `/100.0` of the percentage fees, the guarded
`net_profit / sale_price`, and one `100+vatPercent` per `_extract_vat_share`
call that takes its positive branch. -/
def calcDivisors (p : CommissionParams) : List ℚ :=
  if p.salePrice ≤ 0 then []
  else
    [100, 100, 100] ++ (if 0 < p.salePrice then [p.salePrice] else []) ++
    vatShareDivisors p.vatPercent ++ vatShareDivisors p.vatPercent ++
    vatShareDivisors p.vatPercent ++ vatShareDivisors p.vatPercent ++
    vatShareDivisors p.vatPercent


/-! ## Rounding lemmas -/

theorem ratFloor_eq (x : ℚ) : (x.floor : ℤ) = ⌊x⌋ := by
  rw [Rat.floor_def' x, Rat.floor_def]

theorem roundHalfEven_intCast_add (k : ℤ) (ε : ℚ) (h : |ε| < 1/2) :
    roundHalfEven ((k : ℚ) + ε) = k := by
  rw [abs_lt] at h
  obtain ⟨h1, h2⟩ := h
  unfold roundHalfEven
  rw [ratFloor_eq]
  rcases le_or_lt 0 ε with hε | hε
  · have hf : ⌊(k : ℚ) + ε⌋ = k :=
      Int.floor_eq_iff.2 ⟨by simp [hε], by linarith⟩
    rw [hf, if_pos (by linarith)]
  · have hf : ⌊(k : ℚ) + ε⌋ = k - 1 :=
      Int.floor_eq_iff.2 ⟨by push_cast; linarith, by push_cast; linarith⟩
    rw [hf, if_neg (by push_cast; linarith), if_pos (by push_cast; linarith)]
    ring

theorem roundHalfUp_intCast_add (k : ℤ) (ε : ℚ) (h : |ε| < 1/2) :
    roundHalfUp ((k : ℚ) + ε) = k := by
  rw [abs_lt] at h
  obtain ⟨h1, h2⟩ := h
  unfold roundHalfUp
  rw [ratFloor_eq, ratFloor_eq]
  split_ifs with hx
  · exact Int.floor_eq_iff.2 ⟨by linarith, by linarith⟩
  · have hf : ⌊-((k : ℚ) + ε) + 1/2⌋ = -k :=
      Int.floor_eq_iff.2 ⟨by push_cast; linarith, by push_cast; linarith⟩
    rw [hf]; ring

theorem roundInt_intCast_add (mode : String) (k : ℤ) (ε : ℚ) (h : |ε| < 1/2) :
    roundInt mode ((k : ℚ) + ε) = k := by
  unfold roundInt
  split_ifs
  · exact roundHalfEven_intCast_add k ε h
  · exact roundHalfUp_intCast_add k ε h

theorem roundInt_zero (mode : String) : roundInt mode 0 = 0 := by
  have := roundInt_intCast_add mode 0 0 (by norm_num)
  simpa using this

theorem abs_roundHalfEven_sub (x : ℚ) : |((roundHalfEven x : ℤ) : ℚ) - x| ≤ 1/2 := by
  have h1 : ((⌊x⌋ : ℤ) : ℚ) ≤ x := Int.floor_le x
  have h2 : x < ⌊x⌋ + 1 := Int.lt_floor_add_one x
  unfold roundHalfEven
  rw [ratFloor_eq]
  rw [abs_le]
  split_ifs <;> constructor <;> push_cast <;> linarith

theorem abs_roundHalfUp_sub (x : ℚ) : |((roundHalfUp x : ℤ) : ℚ) - x| ≤ 1/2 := by
  unfold roundHalfUp
  rw [abs_le]
  split_ifs with hx
  · have h1 : ((⌊x + 1/2⌋ : ℤ) : ℚ) ≤ x + 1/2 := Int.floor_le _
    have h2 : x + 1/2 < ⌊x + 1/2⌋ + 1 := Int.lt_floor_add_one _
    rw [ratFloor_eq]
    constructor <;> push_cast at h1 h2 ⊢ <;> linarith
  · have h1 : ((⌊-x + 1/2⌋ : ℤ) : ℚ) ≤ -x + 1/2 := Int.floor_le _
    have h2 : -x + 1/2 < ⌊-x + 1/2⌋ + 1 := Int.lt_floor_add_one _
    rw [ratFloor_eq]
    constructor <;> push_cast at h1 h2 ⊢ <;> linarith

theorem abs_roundInt_sub (mode : String) (x : ℚ) :
    |((roundInt mode x : ℤ) : ℚ) - x| ≤ 1/2 := by
  unfold roundInt
  split_ifs
  · exact abs_roundHalfEven_sub x
  · exact abs_roundHalfUp_sub x

theorem q2_div_hundred (k : ℤ) (mode : String) :
    q2 ((k : ℚ)/100) mode = (k : ℚ)/100 := by
  unfold q2
  have e : (100 : ℚ) * ((k : ℚ)/100) = (k : ℚ) + 0 := by ring
  rw [e, roundInt_intCast_add mode k 0 (by norm_num)]

theorem q2_zero (mode : String) : q2 0 mode = 0 := by
  have := q2_div_hundred 0 mode
  simpa using this

theorem abs_q2_sub (x : ℚ) (mode : String) : |q2 x mode - x| ≤ 1/200 := by
  have h := abs_roundInt_sub mode (100 * x)
  unfold q2
  have e : ((roundInt mode (100 * x) : ℤ) : ℚ)/100 - x =
      (((roundInt mode (100 * x) : ℤ) : ℚ) - 100 * x)/100 := by ring
  rw [e, abs_div]
  have h100 : |(100 : ℚ)| = 100 := by norm_num
  rw [h100]
  linarith

theorem q2_near (k : ℤ) (δ : ℚ) (mode : String) (h : |δ| < 1/200) :
    q2 ((k : ℚ)/100 + δ) mode = (k : ℚ)/100 := by
  unfold q2
  have e : (100 : ℚ) * ((k : ℚ)/100 + δ) = (k : ℚ) + 100 * δ := by ring
  have habs : |100 * δ| < 1/2 := by
    rw [abs_mul, (by norm_num : |(100 : ℚ)| = 100)]
    linarith
  rw [e, roundInt_intCast_add mode k (100 * δ) habs]

theorem q2_near_or_zero (k : ℤ) (δ : ℚ) (mode : String)
    (h : |δ| < 1/200 ∨ δ = 0) : q2 ((k : ℚ)/100 + δ) mode = (k : ℚ)/100 := by
  rcases h with h | h
  · exact q2_near k δ mode h
  · rw [h, add_zero, q2_div_hundred]

theorem normRate_nonneg (r : ℚ) (h : 0 ≤ r) : 0 ≤ normRate r := by
  unfold normRate
  split_ifs <;> positivity

/-! ## C1: the VAT add/remove round trip -/

theorem add_vat_fields (p rate : ℚ) (mode : String) :
    ∃ r : KDVResult, add_vat p rate none mode = .ok r ∧
      r.price_incl_vat = q2 (p + q2 (p * normRate rate) mode) mode :=
  ⟨_, rfl, rfl⟩

theorem remove_vat_net (b rate : ℚ) (mode : String) (h : ¬(1 + normRate rate = 0)) :
    ∃ r : KDVResult, remove_vat b rate none mode = .ok r ∧
      r.price_excl_vat = q2 (b / (1 + normRate rate)) mode := by
  unfold remove_vat
  rw [if_neg h]
  exact ⟨_, rfl, rfl⟩

theorem q2_roundtrip_core (k : ℤ) (ρ : ℚ) (mode : String) (hρ : 0 ≤ ρ) :
    q2 (q2 ((k : ℚ)/100 + q2 ((k : ℚ)/100 * ρ) mode) mode / (1 + ρ)) mode
      = (k : ℚ)/100 := by
  have hpos : (0 : ℚ) < 1 + ρ := by linarith
  have hne : (1 : ℚ) + ρ ≠ 0 := ne_of_gt hpos
  set m : ℤ := roundInt mode (100 * ((k : ℚ)/100 * ρ)) with hm
  have hkdv : q2 ((k : ℚ)/100 * ρ) mode = (m : ℚ)/100 := rfl
  have hbrut : q2 ((k : ℚ)/100 + (m : ℚ)/100) mode = ((k + m : ℤ) : ℚ)/100 := by
    have e : (k : ℚ)/100 + (m : ℚ)/100 = ((k + m : ℤ) : ℚ)/100 := by push_cast; ring
    rw [e, q2_div_hundred]
  rw [hkdv, hbrut]
  have he : |(m : ℚ)/100 - (k : ℚ)/100 * ρ| ≤ 1/200 := by
    have h := abs_q2_sub ((k : ℚ)/100 * ρ) mode
    rw [hkdv] at h
    exact h
  set e : ℚ := (m : ℚ)/100 - (k : ℚ)/100 * ρ with hedef
  have key : ((k + m : ℤ) : ℚ)/100 / (1 + ρ) = (k : ℚ)/100 + e/(1 + ρ) := by
    field_simp
    ring
  rw [key]
  apply q2_near_or_zero
  rcases eq_or_lt_of_le hρ with h0 | hposρ
  · right
    have hm0 : m = 0 := by
      rw [hm, ← h0]
      have : (100 : ℚ) * ((k : ℚ)/100 * 0) = 0 := by ring
      rw [this, roundInt_zero]
    have he0 : e = 0 := by
      rw [hedef, hm0, ← h0]
      push_cast
      ring
    rw [he0, zero_div]
  · left
    have h1 : |e/(1 + ρ)| = |e|/(1 + ρ) := by
      rw [abs_div, abs_of_pos hpos]
    have h2 : |e|/(1 + ρ) ≤ (1/200)/(1 + ρ) :=
      (div_le_div_iff_of_pos_right hpos).2 he
    have h3 : (1/200 : ℚ)/(1 + ρ) < 1/200 := div_lt_self (by norm_num) (by linarith)
    rw [h1]
    linarith

/-- C1: the claim as stated is false on the code.  With price 1.005,
rate 1 (one percent) and the default "even" rounding, `add_vat` produces
gross 1.02 (1.015 ties to even upward), and `remove_vat` then recovers
1.01, while `round(price, 2)` is 1.00: the round trip does not return the
rounded original net. -/
theorem C1_counterexample :
    vatRoundtrip (201/200) 1 "even" = some (101/100) ∧
    q2 (201/200) "even" = 1 ∧ (101/100 : ℚ) ≠ 1 ∧
    (0 : ℚ) < 201/200 ∧ (0 : ℚ) ≤ 1 ∧ (1 : ℚ) ≤ 100 :=
  ⟨by with_unfolding_all rfl, by with_unfolding_all rfl, by norm_num,
   by norm_num, by norm_num, by norm_num⟩

/-- C1 (amended): for every price that is an exact 2-decimal currency
value k/100 with k > 0, every rate in [0, 100] and every rounding mode,
removing VAT from the gross produced by adding VAT recovers the original
net exactly: `remove_vat (add_vat price rate).price_incl_vat rate
.price_excl_vat = round(price, 2) = price`.  (The original claim, over
arbitrary real prices, fails: see the counterexample.) -/
theorem C1_roundtrip (k : ℤ) (rate : ℚ) (mode : String)
    (_hk : 0 < k) (h0 : 0 ≤ rate) (_h100 : rate ≤ 100) :
    vatRoundtrip ((k : ℚ)/100) rate mode = some ((k : ℚ)/100) := by
  obtain ⟨a, ha, haf⟩ := add_vat_fields ((k : ℚ)/100) rate mode
  have hρ : 0 ≤ normRate rate := normRate_nonneg rate h0
  have hne : ¬(1 + normRate rate = 0) := by
    intro hc
    linarith
  obtain ⟨b, hb, hbf⟩ := remove_vat_net a.price_incl_vat rate mode hne
  unfold vatRoundtrip
  rw [ha]
  dsimp only
  rw [hb]
  dsimp only
  rw [hbf, haf]
  rw [q2_roundtrip_core k (normRate rate) mode hρ]

/-- C1 witness: the amended round trip applied at price 100.00, rate 20,
mode "even". -/
theorem C1_roundtrip_witness :
    0 < (10000 : ℤ) ∧ (0 : ℚ) ≤ 20 ∧ (20 : ℚ) ≤ 100 ∧
    vatRoundtrip (((10000 : ℤ) : ℚ)/100) 20 "even" = some (((10000 : ℤ) : ℚ)/100) :=
  ⟨by norm_num, by norm_num, by norm_num,
   C1_roundtrip 10000 20 "even" (by norm_num) (by norm_num) (by norm_num)⟩

/-! ## C2: the commission/profit decomposition -/

/-- C2: the claim as stated is false: the returned fields are the
2-decimal roundings of the formulas, not the raw formula values.  With
salePrice 200 and commissionPercent 0.001 the formula value is 0.002 but
the code returns 0.00. -/
theorem C2_counterexample :
    (calculate_commission ⟨200, 100, 20, 20, 1/1000, 0, 0, false⟩).commissionAmount = 0 ∧
    (200 : ℚ) * (1/1000) / 100 = 1/500 ∧ (0 : ℚ) ≠ 1/500 :=
  ⟨by with_unfolding_all rfl, by norm_num, by norm_num⟩

/-- C2 (amended): for every input with salePrice > 0 the calculation
returns the 2-decimal (banker's) roundings of: commissionAmount /
serviceAmount / exportAmount as the given percentages of salePrice,
payout = salePrice - (commission + service + export + cargo), netProfit =
payout - buyPrice, profitMargin = netProfit / salePrice * 100 (all
computed from the unrounded intermediates); and the end-to-end instance
(salePrice 200, buyPrice 100, cargoPrice 20, vatPercent 20,
commissionPercent 10, servicePercent 0, exportPercent 0, no VAT
deduction) yields exactly commissionAmount 20, payout 160, netProfit 60,
profitMargin 30. -/
theorem C2_formulas (p : CommissionParams) (h : 0 < p.salePrice) :
    ((calculate_commission p).commissionAmount
        = pyRound2 (p.salePrice * p.commissionPercent / 100) ∧
      (calculate_commission p).serviceAmount
        = pyRound2 (p.salePrice * p.servicePercent / 100) ∧
      (calculate_commission p).exportAmount
        = pyRound2 (p.salePrice * p.exportPercent / 100) ∧
      (calculate_commission p).payout
        = pyRound2 (p.salePrice - (p.salePrice * p.commissionPercent / 100
            + p.salePrice * p.servicePercent / 100
            + p.salePrice * p.exportPercent / 100 + p.cargoPrice)) ∧
      (calculate_commission p).netProfit
        = pyRound2 (p.salePrice - (p.salePrice * p.commissionPercent / 100
            + p.salePrice * p.servicePercent / 100
            + p.salePrice * p.exportPercent / 100 + p.cargoPrice) - p.buyPrice) ∧
      (calculate_commission p).profitMargin
        = pyRound2 ((p.salePrice - (p.salePrice * p.commissionPercent / 100
            + p.salePrice * p.servicePercent / 100
            + p.salePrice * p.exportPercent / 100 + p.cargoPrice) - p.buyPrice)
            / p.salePrice * 100)) ∧
    ((calculate_commission ⟨200, 100, 20, 20, 10, 0, 0, false⟩).commissionAmount = 20 ∧
      (calculate_commission ⟨200, 100, 20, 20, 10, 0, 0, false⟩).payout = 160 ∧
      (calculate_commission ⟨200, 100, 20, 20, 10, 0, 0, false⟩).netProfit = 60 ∧
      (calculate_commission ⟨200, 100, 20, 20, 10, 0, 0, false⟩).profitMargin = 30) := by
  constructor
  · unfold calculate_commission
    rw [if_neg (not_le.2 h)]
    dsimp only
    rw [if_pos h]
    refine ⟨rfl, rfl, rfl, rfl, rfl, rfl⟩
  · exact ⟨by with_unfolding_all rfl, by with_unfolding_all rfl,
      by with_unfolding_all rfl, by with_unfolding_all rfl⟩

/-- C2 witness: the formula part applied at the end-to-end input. -/
theorem C2_formulas_witness :
    (0 : ℚ) < 200 ∧
    (calculate_commission ⟨200, 100, 20, 20, 10, 0, 0, false⟩).commissionAmount
      = pyRound2 ((200 : ℚ) * 10 / 100) :=
  ⟨by norm_num, ((C2_formulas ⟨200, 100, 20, 20, 10, 0, 0, false⟩ (by norm_num)).1).1⟩

/-! ## C3: hot reload keeps stale data on failure, empties on missing file -/

/-- C3: for every marketplace, a reload attempt that fails while the file
exists leaves both the row list and the recorded timestamp untouched
(whatever `force` is), and a missing backing file yields an empty row
list rather than an error. -/
theorem C3_refresh (force : Bool) (m : ℚ) (e : String) (st st2 : MpState) :
    (refresh_one force (.present m (.error e)) st).1 = st ∧
    (refresh_one force .missing st2).1.rows = [] := by
  constructor
  · unfold refresh_one
    dsimp only
    split_ifs <;> rfl
  · rfl

/-! ## C8: deriving from the VAT amount at rate 0 -/

/-- C8: for every vatAmount, `from_vat_amount` with rate 0 fails with the
division-by-zero condition (the division is reached before the
withholding argument is parsed), and the API wrapper surfaces this as a
structured success=false result instead of letting the exception unwind. -/
theorem C8_rate_zero (va : ℚ) (w : Option String) (mode : String) :
    from_vat_amount va 0 w mode = .error .divisionByZero ∧
    (api_calc_kdv ⟨"from_vat", none, some va, 0, w, mode⟩).success = false := by
  have hr : normRate 0 = 0 := by unfold normRate; norm_num
  have h1 : from_vat_amount va 0 w mode = .error .divisionByZero := by
    unfold from_vat_amount
    rw [hr]
    simp
  refine ⟨h1, ?_⟩
  unfold api_calc_kdv
  dsimp only
  rw [h1]
  decide

/-! ## C10: no division by zero in the commission calculator -/

/-- C10: for every vatPercent ≤ 0 (including -100, where 100+vatPercent
would be zero) the VAT-share helper returns 0 and evaluates no division;
and every divisor `calculate_commission` evaluates is either the literal
100 of a percentage computation, or 100+vatPercent taken only when
vatPercent > 0, or salePrice taken only when salePrice > 0 — hence zero
is never a divisor. -/
theorem C10_no_division_by_zero :
    (∀ g vp : ℚ, vp ≤ 0 → extract_vat_share g vp = 0 ∧ vatShareDivisors vp = []) ∧
    (∀ p : CommissionParams, ∀ d ∈ calcDivisors p,
      d = 100 ∨ (d = 100 + p.vatPercent ∧ 0 < p.vatPercent) ∨
        (d = p.salePrice ∧ 0 < p.salePrice)) ∧
    (∀ p : CommissionParams, (0 : ℚ) ∉ calcDivisors p) := by
  have hshare : ∀ g vp : ℚ, vp ≤ 0 →
      extract_vat_share g vp = 0 ∧ vatShareDivisors vp = [] := by
    intro g vp h
    constructor
    · unfold extract_vat_share
      rw [if_neg (not_lt.2 h)]
    · unfold vatShareDivisors
      rw [if_neg (not_lt.2 h)]
  have hmem : ∀ p : CommissionParams, ∀ d ∈ calcDivisors p,
      d = 100 ∨ (d = 100 + p.vatPercent ∧ 0 < p.vatPercent) ∨
        (d = p.salePrice ∧ 0 < p.salePrice) := by
    intro p d hd
    unfold calcDivisors vatShareDivisors at hd
    by_cases hs : p.salePrice ≤ 0
    · rw [if_pos hs] at hd
      simp at hd
    · rw [if_neg hs] at hd
      push_neg at hs
      rw [if_pos hs] at hd
      by_cases hv : 0 < p.vatPercent
      · rw [if_pos hv] at hd
        simp only [List.mem_append, List.mem_cons, List.not_mem_nil, or_false] at hd
        tauto
      · rw [if_neg hv] at hd
        simp only [List.mem_append, List.mem_cons, List.not_mem_nil, or_false,
          List.append_nil] at hd
        tauto
  refine ⟨hshare, hmem, ?_⟩
  intro p hd
  rcases hmem p 0 hd with h | ⟨h, hv⟩ | ⟨h, hs⟩
  · norm_num at h
  · linarith
  · linarith

/-- C10 witness: the helper at vatPercent -100 and the divisor list at the
end-to-end input. -/
theorem C10_witness :
    ((-100 : ℚ) ≤ 0 ∧ extract_vat_share 50 (-100) = 0 ∧
      vatShareDivisors (-100) = []) ∧
    (0 : ℚ) ∉ calcDivisors ⟨200, 100, 20, 20, 10, 0, 0, false⟩ := by
  refine ⟨⟨by norm_num, ?_, ?_⟩, ?_⟩
  · exact (C10_no_division_by_zero.1 50 (-100) (by norm_num)).1
  · exact (C10_no_division_by_zero.1 50 (-100) (by norm_num)).2
  · exact C10_no_division_by_zero.2.2 ⟨200, 100, 20, 20, 10, 0, 0, false⟩

/-! ## C7: withholding parsing -/

theorem takeWhile_slash (a b : List Char) (h : '/' ∉ a) :
    (a ++ '/' :: b).takeWhile (fun c => c ≠ '/') = a := by
  induction a with
  | nil => simp [List.takeWhile]
  | cons x xs ih =>
    simp only [List.mem_cons, not_or] at h
    have hx : (decide (x ≠ '/')) = true := decide_eq_true (fun hh => h.1 hh.symm)
    simp only [List.cons_append, List.takeWhile, hx, List.append_eq]
    rw [ih h.2]

theorem dropWhile_slash (a b : List Char) (h : '/' ∉ a) :
    (a ++ '/' :: b).dropWhile (fun c => c ≠ '/') = '/' :: b := by
  induction a with
  | nil => simp [List.dropWhile]
  | cons x xs ih =>
    simp only [List.mem_cons, not_or] at h
    have hx : (decide (x ≠ '/')) = true := decide_eq_true (fun hh => h.1 hh.symm)
    simp only [List.cons_append, List.dropWhile, hx, List.append_eq]
    exact ih h.2

/-- C7 counterexample: a denominator whose numeric value is zero but
whose literal text is not exactly "0" raises DivisionByZero instead of
yielding ratio 0 — only the literal string "0" is special-cased. -/
theorem C7_counterexample :
    parseWithholding (some "7/0.0") = .error .divisionByZero ∧
    parseWithholding (some "7/0") = .ok 0 :=
  ⟨by with_unfolding_all rfl, rfl⟩

/-- C7 (amended): a missing input yields ratio 0; a fraction string "a/b"
whose denominator is the literal string "0" yields ratio 0; when both
sides parse as decimals and the denominator value is nonzero the result
is a/b clamped to [0,1], but a zero-valued denominator written other than
"0" (e.g. "0.0") raises DivisionByZero; a bare number with value > 1 is
divided by 100 and the result clamped to [0,1]. -/
theorem C7_withholding :
    (parseWithholding none = .ok 0) ∧
    (∀ ws : String, ∀ a b : List Char,
      (pyStrip ws).data.filter (fun c => c ≠ ' ') = a ++ '/' :: b → '/' ∉ a →
      ((b = ['0'] → parseWithholding (some ws) = .ok 0) ∧
       (∀ qa qb : ℚ, parseDec a = some qa → parseDec b = some qb → b ≠ ['0'] →
         ((qb = 0 → parseWithholding (some ws) = .error .divisionByZero) ∧
          (qb ≠ 0 → parseWithholding (some ws) = .ok (clamp01 (qa / qb))))))) ∧
    (∀ ws : String, ∀ v : ℚ,
      '/' ∉ (pyStrip ws).data.filter (fun c => c ≠ ' ') →
      parseDec ((pyStrip ws).data.filter (fun c => c ≠ ' ')) = some v →
      1 < v →
      parseWithholding (some ws) = .ok (clamp01 (v / 100))) := by
  refine ⟨rfl, ?_, ?_⟩
  · intro ws a b hsplit hna
    have hmem : '/' ∈ a ++ '/' :: b := by simp
    have htake := takeWhile_slash a b hna
    have hdrop := dropWhile_slash a b hna
    constructor
    · intro hb
      unfold parseWithholding
      dsimp only
      rw [hsplit, if_pos hmem, htake, hdrop]
      simp only [List.tail_cons]
      rw [if_pos hb]
    · intro qa qb hqa hqb hb
      constructor
      · intro hz
        unfold parseWithholding
        dsimp only
        rw [hsplit, if_pos hmem, htake, hdrop]
        simp only [List.tail_cons]
        rw [if_neg hb, hqa, hqb]
        dsimp only
        rw [if_pos hz]
      · intro hz
        unfold parseWithholding
        dsimp only
        rw [hsplit, if_pos hmem, htake, hdrop]
        simp only [List.tail_cons]
        rw [if_neg hb, hqa, hqb]
        dsimp only
        rw [if_neg hz]
  · intro ws v hns hv h1
    have hvpos : (0 : ℚ) < v := lt_trans zero_lt_one h1
    have hpos : (0 : ℚ) < v / 100 := div_pos hvpos (by norm_num)
    unfold parseWithholding
    dsimp only
    rw [if_neg hns, hv]
    dsimp only
    rw [if_pos h1]
    rw [if_neg (by linarith : ¬ v / 100 < 0)]
    unfold clamp01
    rw [max_eq_right (le_of_lt hpos)]
    rcases le_or_lt (v / 100) 1 with hle | hlt
    · rw [if_neg (not_lt.2 hle), min_eq_right hle]
    · rw [if_pos hlt, min_eq_left (le_of_lt hlt)]

/-- C7 witness: the amended statement applied at "7/10" (a parsed
fraction), at "7/0" (literal-zero denominator) and at the missing
input. -/
theorem C7_witness :
    parseWithholding none = .ok 0 ∧
    parseWithholding (some "7/0") = .ok 0 ∧
    parseWithholding (some "7/10") = .ok (clamp01 (7 / 10)) ∧
    clamp01 ((7 : ℚ) / 10) = 7 / 10 := by
  refine ⟨C7_withholding.1, ?_, ?_, by norm_num [clamp01]⟩
  · exact ((C7_withholding.2.1 "7/0" ['7'] ['0'] (by with_unfolding_all rfl)
      (by decide)).1) rfl
  · exact (((C7_withholding.2.1 "7/10" ['7'] ['1', '0'] (by with_unfolding_all rfl)
      (by decide)).2) 7 10 (by with_unfolding_all rfl) (by with_unfolding_all rfl)
      (by decide)).2 (by norm_num)

/-! ## C9: scale-fix idempotence -/

theorem getD_map_mul100 (l : List ℚ) (i : ℕ) (d : ℚ) :
    (l.map (fun x => x * 100)).getD i (d * 100) = (l.getD i d) * 100 := by
  induction l generalizing i with
  | nil => simp
  | cons x xs ih =>
    cases i with
    | zero => simp
    | succ n => simp [ih n]

theorem getD_map_mul100_zero (l : List ℚ) (i : ℕ) :
    (l.map (fun x => x * 100)).getD i 0 = (l.getD i 0) * 100 := by
  have h := getD_map_mul100 l i 0
  simpa using h

theorem quantile95_mul100 (v : List ℚ) :
    quantile95 (v.map (fun x => x * 100)) = quantile95 v * 100 := by
  have hl : ∀ a ∈ v, ∀ b ∈ v, a ≤ b ↔ a * 100 ≤ b * 100 := by
    intro a _ b _
    exact (mul_le_mul_right (by norm_num : (0 : ℚ) < 100)).symm
  have hsort := (List.map_insertionSort (fun a b : ℚ => a ≤ b) (fun a b : ℚ => a ≤ b)
    (fun x => x * 100) v hl).symm
  unfold quantile95
  dsimp only
  rw [hsort, List.length_map]
  by_cases hn : (List.insertionSort (fun a b : ℚ => a ≤ b) v).length = 0
  · rw [if_pos hn, if_pos hn]
    norm_num
  · rw [if_neg hn, if_neg hn]
    rw [getD_map_mul100_zero]
    rw [getD_map_mul100]
    ring

theorem quantile95_nil : quantile95 ([] : List ℚ) = 0 := rfl

theorem fix_scale_id (c : List (Option ℚ))
    (h : c.reduceOption = [] ∨ 1 < quantile95 c.reduceOption) :
    fix_scale c = c := by
  unfold fix_scale
  dsimp only
  rw [if_neg]
  rintro ⟨hlen, hq⟩
  rcases h with h | h
  · exact hlen (by simp [h])
  · linarith

theorem fix_scale_scaled (c : List (Option ℚ)) (h1 : c.reduceOption ≠ [])
    (h2 : quantile95 c.reduceOption ≤ 1) :
    fix_scale c = c.map (Option.map (fun x => x * 100)) := by
  unfold fix_scale
  dsimp only
  rw [if_pos ⟨by simpa [List.length_eq_zero] using h1, h2⟩]

/-- C9 counterexample: the column [0.005] lies within the 0-100 range,
yet one application of `_fix_scale` turns it into [0.5] and a second
application re-scales to [50]: the second application is not a no-op on a
0-100-ranged column. -/
theorem C9_counterexample :
    onPercentScale [some (1/200)] ∧
    fix_scale [some (1/200)] = [some (1/2)] ∧
    fix_scale (fix_scale [some (1/200)]) = [some (50 : ℚ)] ∧
    fix_scale (fix_scale [some (1/200)]) ≠ fix_scale [some (1/200)] := by
  have e1 : fix_scale [some ((1 : ℚ)/200)] = [some ((1 : ℚ)/2)] := by
    with_unfolding_all rfl
  have e2 : fix_scale (fix_scale [some ((1 : ℚ)/200)]) = [some ((50 : ℚ))] := by
    with_unfolding_all rfl
  refine ⟨?_, e1, e2, ?_⟩
  · intro x hx
    have hx2 : x = 1/200 := by simpa using hx
    subst hx2
    constructor <;> norm_num
  · rw [e2, e1]
    intro hc
    simp only [List.cons.injEq, Option.some.injEq, and_true] at hc
    norm_num at hc

/-- C9 (amended): the second application of `_fix_scale` is a no-op for
every column whose non-missing values have 95th percentile above 0.01
(in particular every column the heuristic already classes as
whole-percent, i.e. with 95th percentile above 1); a column whose 95th
percentile is at most 0.01 — such as [0.005] — is multiplied by 100 on
both applications (see counterexample). -/
theorem C9_idempotent (c : List (Option ℚ))
    (h : c.reduceOption = [] ∨ 1/100 < quantile95 c.reduceOption) :
    fix_scale (fix_scale c) = fix_scale c := by
  rcases h with h | h
  · rw [fix_scale_id c (Or.inl h), fix_scale_id c (Or.inl h)]
  · rcases le_or_lt (quantile95 c.reduceOption) 1 with hle | hgt
    · have hne : c.reduceOption ≠ [] := by
        intro he
        rw [he, quantile95_nil] at h
        norm_num at h
      rw [fix_scale_scaled c hne hle]
      apply fix_scale_id
      right
      rw [List.reduceOption_map, quantile95_mul100]
      linarith
    · rw [fix_scale_id c (Or.inr hgt), fix_scale_id c (Or.inr hgt)]

/-- C9 witness: the amended idempotence applied at the whole-percent
column [50]. -/
theorem C9_witness :
    (([some (50 : ℚ)] : List (Option ℚ)).reduceOption = [] ∨
      1/100 < quantile95 (([some (50 : ℚ)] : List (Option ℚ)).reduceOption)) ∧
    fix_scale (fix_scale [some (50 : ℚ)]) = fix_scale [some (50 : ℚ)] := by
  have hq : quantile95 (([some (50 : ℚ)] : List (Option ℚ)).reduceOption) = 50 := by
    with_unfolding_all rfl
  have h : ([some (50 : ℚ)] : List (Option ℚ)).reduceOption = [] ∨
      1/100 < quantile95 (([some (50 : ℚ)] : List (Option ℚ)).reduceOption) := by
    right
    rw [hq]
    norm_num
  exact ⟨h, C9_idempotent _ h⟩

/-! ## C4: ranked search -/

theorem lexLeB_total (l1 l2 : List Char) : lexLeB l1 l2 = true ∨ lexLeB l2 l1 = true := by
  induction l1 generalizing l2 with
  | nil => left; cases l2 <;> rfl
  | cons a as ih =>
    cases l2 with
    | nil => right; rfl
    | cons b bs =>
      rcases lt_trichotomy a b with h | h | h
      · left; simp [lexLeB, h]
      · subst h
        rcases ih bs with h2 | h2
        · left; simp [lexLeB, h2]
        · right; simp [lexLeB, h2]
      · right; simp [lexLeB, h]

theorem lexLeB_trans (l1 l2 l3 : List Char) (h12 : lexLeB l1 l2 = true)
    (h23 : lexLeB l2 l3 = true) : lexLeB l1 l3 = true := by
  induction l1 generalizing l2 l3 with
  | nil => rfl
  | cons a as ih =>
    cases l2 with
    | nil => simp [lexLeB] at h12
    | cons b bs =>
      cases l3 with
      | nil => simp [lexLeB] at h23
      | cons c cs =>
        simp only [lexLeB] at h12 h23 ⊢
        by_cases h1 : a < b
        · by_cases h2 : b < c
          · rw [if_pos (lt_trans h1 h2)]
          · by_cases h2e : b = c
            · subst h2e; rw [if_pos h1]
            · rw [if_neg h2, if_neg h2e] at h23; exact absurd h23 (by simp)
        · by_cases h1e : a = b
          · subst h1e
            rw [if_neg h1, if_pos rfl] at h12
            by_cases h2 : a < c
            · rw [if_pos h2]
            · by_cases h2e : a = c
              · rw [if_neg h2, if_pos h2e] at h23 ⊢
                exact ih bs cs h12 h23
              · rw [if_neg h2, if_neg h2e] at h23; exact absurd h23 (by simp)
          · rw [if_neg h1, if_neg h1e] at h12; exact absurd h12 (by simp)

instance searchLeTotal (q : String) : IsTotal Row (searchLe q) := by
  constructor
  intro a b
  unfold searchLe
  rcases Nat.lt_trichotomy (rowPriority q a) (rowPriority q b) with h | h | h
  · left; left; exact h
  · rcases lexLeB_total (pathForSort a).data (pathForSort b).data with h2 | h2
    · left; right; exact ⟨h, h2⟩
    · right; right; exact ⟨h.symm, h2⟩
  · right; left; exact h

instance searchLeTrans (q : String) : IsTrans Row (searchLe q) := by
  constructor
  intro a b c hab hbc
  rcases hab with h1 | ⟨h1, h1l⟩ <;> rcases hbc with h2 | ⟨h2, h2l⟩
  · left; exact lt_trans h1 h2
  · left; exact h2 ▸ h1
  · left; exact h1 ▸ h2
  · right; exact ⟨h1.trans h2, lexLeB_trans _ _ _ h1l h2l⟩

/-- C4 counterexample: with query "x", rows with categories "aX" and "Bx"
both match in category (same rank).  The displayed path of the "Bx" row
is lexicographically smaller than that of the "aX" row (code point 'B' <
'a'), so the claimed tie-break would put "Bx" first; the code sorts by
the lower-cased path and returns the "aX" row first. -/
theorem C4_counterexample :
    search_products [⟨"aX", "", "", .none⟩, ⟨"Bx", "", "", .none⟩] "x"
      = [⟨"aX", "", "", .none⟩, ⟨"Bx", "", "", .none⟩] ∧
    rowPriority (foldQuery "x") ⟨"aX", "", "", .none⟩ = 0 ∧
    rowPriority (foldQuery "x") ⟨"Bx", "", "", .none⟩ = 0 ∧
    lexLtB (displayedPath ⟨"Bx", "", "", .none⟩).data
      (displayedPath ⟨"aX", "", "", .none⟩).data = true := by
  refine ⟨?_, by decide, by decide, by decide⟩
  decide

/-- C4 (amended): an empty folded query returns all rows in original
order; a non-empty query returns exactly the rows whose case-folded,
Turkish-folded category, sub-category or product-group contains the
folded query (a permutation of that filter), ordered by rank (category
match before sub-category-only before product-group-only) with ties
within a rank broken by the lexicographic order of the LOWER-CASED
displayed path category → subCategory → productGroup (not of the
displayed path itself — see the counterexample). -/
theorem C4_search (rows : List Row) (query : String) :
    (foldQuery query = "" → search_products rows query = rows) ∧
    (foldQuery query ≠ "" →
      (search_products rows query).Perm
        (rows.filter (rowMatches (foldQuery query))) ∧
      (search_products rows query).Sorted (searchLe (foldQuery query))) := by
  constructor
  · intro h
    unfold search_products
    dsimp only
    rw [if_pos h]
  · intro h
    unfold search_products
    dsimp only
    rw [if_neg h]
    exact ⟨List.perm_insertionSort _ _, List.sorted_insertionSort _ _⟩

/-- C4 witness: the amended search applied at the counterexample rows
with query "x", and at an empty query. -/
theorem C4_witness :
    foldQuery "x" ≠ "" ∧
    (search_products [⟨"aX", "", "", .none⟩, ⟨"Bx", "", "", .none⟩] "x").Perm
      ([⟨"aX", "", "", .none⟩, ⟨"Bx", "", "", .none⟩].filter
        (rowMatches (foldQuery "x"))) ∧
    search_products [⟨"aX", "", "", .none⟩] "" = [⟨"aX", "", "", .none⟩] := by
  have hne : foldQuery "x" ≠ "" := by decide
  exact ⟨hne, ((C4_search _ "x").2 hne).1, (C4_search _ "").1 (by decide)⟩

/-! ## C6: the dual-use category / sub-category binding -/

theorem contains_true {cols : List String} {c : String} (h : c ∈ cols) :
    cols.contains c = true := by
  simp [List.contains, List.elem_iff, h]

theorem contains_false {cols : List String} {c : String} (h : c ∉ cols) :
    cols.contains c = false := by
  simp [List.contains, List.elem_iff, h]

theorem pick_first_present_congr (cols1 cols2 cands : List String)
    (h : ∀ c, c ∈ cols1 ↔ c ∈ cols2) :
    pick_first_present cols1 cands = pick_first_present cols2 cands := by
  induction cands with
  | nil => rfl
  | cons c cs ih =>
    unfold pick_first_present at ih ⊢
    rw [List.find?_cons, List.find?_cons]
    by_cases hm : c ∈ cols1
    · rw [contains_true hm, contains_true ((h c).1 hm)]
    · have hm2 : c ∉ cols2 := fun hx => hm ((h c).2 hx)
      rw [contains_false hm, contains_false hm2]
      exact ih

/-- C6 counterexample: with N11's candidate lists, a raw table exposing
both "Ana Kategori" and "Kategori" but no "Alt Kategori" binds the
"Kategori" column to the canonical category field and leaves sub-category
constant-empty — "Ana Kategori" is ignored and the claimed reinterpretation
does not happen.  (N11 lists "Kategori" before "Ana Kategori" as a
category candidate and "Kategori" as its own sub-category fallback, so
cat_col = sub_col = "Kategori" and the single-column branch is taken.) -/
theorem C6_counterexample :
    resolveBinding n11Cands ["Ana Kategori", "Kategori", "Ürün Grubu"]
      = .ok ⟨"Kategori", none, "Ürün Grubu", none⟩ ∧
    "Ana Kategori" ∈ ["Ana Kategori", "Kategori", "Ürün Grubu"] ∧
    "Kategori" ∈ ["Ana Kategori", "Kategori", "Ürün Grubu"] ∧
    "Alt Kategori" ∉ ["Ana Kategori", "Kategori", "Ürün Grubu"] := by
  refine ⟨by decide, by decide, by decide, by decide⟩

/-- C6 (amended): the dual-use rule — bind "Ana Kategori" to canonical
category and reinterpret "Kategori" as canonical sub-category when both
are present and "Alt Kategori" is not — holds for `normalize_api_item`
and for the Trendyol and Hepsiburada candidate lists; with the N11 /
Amazon / Çiçeksepeti / PTTAVM candidate lists (whose category candidates
start with "Kategori") the "Kategori" column binds to category instead
(see counterexample).  The resolution is purely a function of which
column names are present, never of cell contents. -/
theorem C6_dual_use :
    (∀ cols : List String, ∀ g : String,
      "Ana Kategori" ∈ cols → "Kategori" ∈ cols → "Alt Kategori" ∉ cols →
      pick_first_present cols trendyolCands.product_group = some g →
      ∃ com, resolveBinding trendyolCands cols
        = .ok ⟨"Ana Kategori", some "Kategori", g, com⟩) ∧
    (∀ cols : List String, ∀ g : String,
      "Ana Kategori" ∈ cols → "Kategori" ∈ cols → "Alt Kategori" ∉ cols →
      pick_first_present cols hepsiburadaCands.product_group = some g →
      ∃ com, resolveBinding hepsiburadaCands cols
        = .ok ⟨"Ana Kategori", some "Kategori", g, com⟩) ∧
    (∀ keys : List String, "Ana Kategori" ∈ keys → "Alt Kategori" ∉ keys →
      normalizeApiItemKeys keys = keys.map (normApiKey true false) ∧
      normApiKey true false "Kategori" = "subCategory" ∧
      normApiKey true false "Ana Kategori" = "category") ∧
    (∀ cands : Candidates, ∀ cols1 cols2 : List String,
      (∀ c, c ∈ cols1 ↔ c ∈ cols2) →
      resolveBinding cands cols1 = resolveBinding cands cols2) := by
  have main : ∀ cols : List String, ∀ g : String,
      "Ana Kategori" ∈ cols → "Kategori" ∈ cols →
      pick_first_present cols ["Ürün Grubu", "Urun Grubu", "Urun_Grubu"] = some g →
      ∀ comCands : List String,
      resolveBinding ⟨["Ana Kategori", "Kategori"], ["Kategori", "Alt Kategori"],
          ["Ürün Grubu", "Urun Grubu", "Urun_Grubu"], comCands⟩ cols
        = .ok ⟨"Ana Kategori", some "Kategori", g,
            if (pick_first_present cols comCands).getD "" = "" then none
            else some ((pick_first_present cols comCands).getD "")⟩ := by
    intro cols g hAna hKat hgrp comCands
    have hcat : pick_first_present cols ["Ana Kategori", "Kategori"]
        = some "Ana Kategori" := by
      unfold pick_first_present
      rw [List.find?_cons, contains_true hAna]
    have hsub : pick_first_present cols ["Kategori", "Alt Kategori"]
        = some "Kategori" := by
      unfold pick_first_present
      rw [List.find?_cons, contains_true hKat]
    have hgm := List.mem_of_find?_eq_some hgrp
    have hgne : ¬(g = "") := by
      simp only [List.mem_cons, List.not_mem_nil, or_false] at hgm
      rcases hgm with rfl | rfl | rfl <;> decide
    unfold resolveBinding
    rw [hcat, hsub, hgrp]
    dsimp only [Option.getD]
    rw [if_neg hgne]
    rw [if_neg (by decide : ¬("Ana Kategori" = "" ∧ "Kategori" = ""))]
    rw [if_pos (by decide : "Ana Kategori" ≠ "" ∧ "Kategori" ≠ "" ∧
      "Ana Kategori" ≠ "Kategori")]
  refine ⟨?_, ?_, ?_, ?_⟩
  · intro cols g hAna hKat _ hgrp
    exact ⟨_, main cols g hAna hKat hgrp _⟩
  · intro cols g hAna hKat _ hgrp
    exact ⟨_, main cols g hAna hKat hgrp _⟩
  · intro keys h1 h2
    refine ⟨?_, rfl, rfl⟩
    unfold normalizeApiItemKeys
    rw [contains_true h1, contains_false h2]
  · intro cands cols1 cols2 h
    unfold resolveBinding
    rw [pick_first_present_congr cols1 cols2 cands.category h,
      pick_first_present_congr cols1 cols2 cands.sub_category h,
      pick_first_present_congr cols1 cols2 cands.product_group h,
      pick_first_present_congr cols1 cols2 cands.commission h]

/-- C6 witness: the amended rule applied to a Hepsiburada-shaped table. -/
theorem C6_witness :
    "Ana Kategori" ∈ ["Ana Kategori", "Kategori", "Ürün Grubu"] ∧
    "Alt Kategori" ∉ ["Ana Kategori", "Kategori", "Ürün Grubu"] ∧
    ∃ com, resolveBinding trendyolCands ["Ana Kategori", "Kategori", "Ürün Grubu"]
      = .ok ⟨"Ana Kategori", some "Kategori", "Ürün Grubu", com⟩ :=
  ⟨by decide, by decide,
    C6_dual_use.1 ["Ana Kategori", "Kategori", "Ürün Grubu"] "Ürün Grubu"
      (by decide) (by decide) (by decide) (by decide)⟩

/-! ## C5: product-group aggregation by maximum -/

theorem mkPgEntry_pg (pg : String) (v : PyNum) :
    (mkPgEntry pg v).productGroup = pg := rfl

theorem mkPgEntry_val (pg : String) (v : PyNum) :
    (mkPgEntry pg v).commissionPercent = v := rfl

instance pgLeTotal : IsTotal PgEntry pgLe :=
  ⟨fun _ _ => lexLeB_total _ _⟩

instance pgLeTrans : IsTrans PgEntry pgLe :=
  ⟨fun _ _ _ => lexLeB_trans _ _ _⟩

theorem pgLookup_none_iff {S : List PgEntry} {pg : String} :
    pgLookup S pg = none ↔ ∀ e ∈ S, e.productGroup ≠ pg := by
  unfold pgLookup
  rw [List.find?_eq_none]
  constructor
  · intro h e he
    simpa using h e he
  · intro h e he
    simp [h e he]

theorem pgLookup_some {S : List PgEntry} {pg : String} {cur : PgEntry}
    (h : pgLookup S pg = some cur) : cur ∈ S ∧ cur.productGroup = pg := by
  refine ⟨List.mem_of_find?_eq_some h, ?_⟩
  have h2 := List.find?_some h
  simpa using h2

theorem pgBest_extend {nq : String} {l : List Row} {r : Row} {e : PgEntry}
    (hb : pgBest nq l e)
    (hr : pgPass nq r = true → pgOf r = e.productGroup →
      valOr0 r.komisyon ≤ valOr0 e.commissionPercent) :
    pgBest nq (l ++ [r]) e := by
  obtain ⟨l₁, rs, l₂, hdec, hp, hpg, he, hlt, hle⟩ := hb
  refine ⟨l₁, rs, l₂ ++ [r], by rw [hdec]; simp, hp, hpg, he, hlt, ?_⟩
  intro r2 h2 hpass2 hpg2
  rcases List.mem_append.1 h2 with h2 | h2
  · exact hle r2 h2 hpass2 hpg2
  · have h3 : r2 = r := by simpa using h2
    subst h3
    have h4 := hr hpass2 hpg2
    rw [he, mkPgEntry_val] at h4
    exact h4

theorem pyGtB_eq (a b : PyNum) (ha : a ≠ PyNum.nan) (hb : b ≠ PyNum.nan) :
    pyGtB a b = decide (valOr0 b < valOr0 a) := by
  cases a <;> cases b <;> first | rfl | exact absurd rfl ha | exact absurd rfl hb

theorem pgFold_spec (nq : String) (rows : List Row) :
    ((rows.foldl (pgStep nq) []).map (fun e => e.productGroup)).Nodup ∧
    (∀ pg : String,
      (∃ e ∈ rows.foldl (pgStep nq) [], e.productGroup = pg) ↔
      (∃ r ∈ rows, pgPass nq r = true ∧ pgOf r = pg)) ∧
    ((∀ r ∈ rows, pgPass nq r = true → r.komisyon ≠ PyNum.nan) →
      ∀ e ∈ rows.foldl (pgStep nq) [], pgBest nq rows e) := by
  induction rows using List.reverseRecOn with
  | nil => exact ⟨List.nodup_nil, by simp, by simp⟩
  | append_singleton l r ih =>
    obtain ⟨ihN, ihC, ihB⟩ := ih
    rw [List.foldl_append, List.foldl_cons, List.foldl_nil]
    generalize hSdef : List.foldl (pgStep nq) [] l = S at ihN ihC ihB ⊢
    by_cases hpass : pgPass nq r = true
    · cases hlook : pgLookup (S) (pgOf r) with
      | none =>
        have hstep : pgStep nq (S) r
            = S ++ [mkPgEntry (pgOf r) r.komisyon] := by
          unfold pgStep
          rw [if_neg (fun hc => hc hpass)]
          dsimp only
          rw [hlook]
        rw [hstep]
        have hnone := pgLookup_none_iff.1 hlook
        refine ⟨?_, ?_, ?_⟩
        · rw [List.map_append, List.nodup_append]
          refine ⟨ihN, by simp, ?_⟩
          intro x hx hx2
          have hx3 : x = pgOf r := by simpa [mkPgEntry] using hx2
          subst hx3
          obtain ⟨e, he, hepg⟩ := List.mem_map.1 hx
          exact hnone e he hepg
        · intro pg'
          constructor
          · rintro ⟨e, he, hepg⟩
            rcases List.mem_append.1 he with he | he
            · obtain ⟨r', h1, h2⟩ := (ihC pg').1 ⟨e, he, hepg⟩
              exact ⟨r', List.mem_append_left _ h1, h2⟩
            · have he2 : e = mkPgEntry (pgOf r) r.komisyon := by simpa using he
              subst he2
              rw [mkPgEntry_pg] at hepg
              exact ⟨r, List.mem_append_right _ (by simp), hpass, hepg⟩
          · rintro ⟨r', h1, hp', hpg'⟩
            rcases List.mem_append.1 h1 with h1 | h1
            · obtain ⟨e, he, hepg⟩ := (ihC pg').2 ⟨r', h1, hp', hpg'⟩
              exact ⟨e, List.mem_append_left _ he, hepg⟩
            · have h2 : r' = r := by simpa using h1
              subst h2
              refine ⟨mkPgEntry (pgOf r') r'.komisyon,
                List.mem_append_right _ (by simp), ?_⟩
              rw [mkPgEntry_pg]
              exact hpg'
        · intro hnan
          have hnanl : ∀ r2 ∈ l, pgPass nq r2 = true → r2.komisyon ≠ PyNum.nan :=
            fun r2 h hp => hnan r2 (List.mem_append_left _ h) hp
          have ihB2 := ihB hnanl
          intro e he
          rcases List.mem_append.1 he with he | he
          · refine pgBest_extend (ihB2 e he) ?_
            intro hp hpg2
            exact absurd hpg2.symm (hnone e he)
          · have he2 : e = mkPgEntry (pgOf r) r.komisyon := by simpa using he
            subst he2
            refine ⟨l, r, [], by simp, hpass, by rw [mkPgEntry_pg], rfl, ?_, by simp⟩
            intro r2 h2 hp2 hpg2
            exfalso
            rw [mkPgEntry_pg] at hpg2
            obtain ⟨e', he', hepg'⟩ := (ihC (pgOf r)).2 ⟨r2, h2, hp2, hpg2⟩
            exact hnone e' he' hepg'
      | some cur =>
        obtain ⟨hcurmem, hcurpg⟩ := pgLookup_some hlook
        have huniq : ∀ e ∈ S, e.productGroup = pgOf r → e = cur :=
          fun e he hepg =>
            List.inj_on_of_nodup_map ihN he hcurmem (by rw [hepg, hcurpg])
        by_cases hgtb : pyGtB r.komisyon cur.commissionPercent = true
        · have hstep : pgStep nq (S) r
              = (S).map
                  (fun e => if e.productGroup = pgOf r
                    then mkPgEntry (pgOf r) r.komisyon else e) := by
            unfold pgStep
            rw [if_neg (fun hc => hc hpass)]
            dsimp only
            rw [hlook]
            dsimp only
            rw [if_pos hgtb]
          rw [hstep]
          have hkeys : ((S).map
              (fun e => if e.productGroup = pgOf r
                then mkPgEntry (pgOf r) r.komisyon else e)).map
                  (fun e => e.productGroup)
              = (S).map (fun e => e.productGroup) := by
            rw [List.map_map]
            apply List.map_congr_left
            intro e _
            by_cases hpg2 : e.productGroup = pgOf r
            · simp [Function.comp, hpg2, mkPgEntry]
            · simp [Function.comp, hpg2]
          refine ⟨?_, ?_, ?_⟩
          · rw [hkeys]
            exact ihN
          · intro pg'
            constructor
            · rintro ⟨e', he', hepg'⟩
              obtain ⟨e, he, hfe⟩ := List.mem_map.1 he'
              by_cases hpg2 : e.productGroup = pgOf r
              · have h3 : e' = mkPgEntry (pgOf r) r.komisyon := by
                  rw [← hfe, if_pos hpg2]
                rw [h3, mkPgEntry_pg] at hepg'
                exact ⟨r, List.mem_append_right _ (by simp), hpass, hepg'⟩
              · have h3 : e' = e := by rw [← hfe, if_neg hpg2]
                rw [h3] at hepg'
                obtain ⟨r', h1, h2⟩ := (ihC pg').1 ⟨e, he, hepg'⟩
                exact ⟨r', List.mem_append_left _ h1, h2⟩
            · rintro ⟨r', h1, hp', hpg'⟩
              rcases List.mem_append.1 h1 with h1 | h1
              · obtain ⟨e, he, hepg⟩ := (ihC pg').2 ⟨r', h1, hp', hpg'⟩
                refine ⟨(fun e => if e.productGroup = pgOf r
                    then mkPgEntry (pgOf r) r.komisyon else e) e,
                  List.mem_map_of_mem _ he, ?_⟩
                dsimp only
                by_cases hpg2 : e.productGroup = pgOf r
                · rw [if_pos hpg2, mkPgEntry_pg, ← hpg2]
                  exact hepg
                · rw [if_neg hpg2]
                  exact hepg
              · have h2 : r' = r := by simpa using h1
                subst h2
                refine ⟨(fun e => if e.productGroup = pgOf r'
                    then mkPgEntry (pgOf r') r'.komisyon else e) cur,
                  List.mem_map_of_mem _ hcurmem, ?_⟩
                dsimp only
                rw [if_pos hcurpg, mkPgEntry_pg]
                exact hpg'
          · intro hnan
            have hnanl : ∀ r2 ∈ l, pgPass nq r2 = true → r2.komisyon ≠ PyNum.nan :=
              fun r2 h hp => hnan r2 (List.mem_append_left _ h) hp
            have ihB2 := ihB hnanl
            have hrnan : r.komisyon ≠ PyNum.nan :=
              hnan r (List.mem_append_right _ (by simp)) hpass
            have hcurnan : cur.commissionPercent ≠ PyNum.nan := by
              obtain ⟨a, rc, b, hdec, hpc, hpgc, hce, hlt2, hle2⟩ := ihB2 cur hcurmem
              rw [hce, mkPgEntry_val]
              refine hnanl rc ?_ hpc
              rw [hdec]
              exact List.mem_append_right a (List.mem_cons_self rc b)
            have hgt : valOr0 cur.commissionPercent < valOr0 r.komisyon := by
              have h2 := pyGtB_eq r.komisyon cur.commissionPercent hrnan hcurnan
              rw [h2] at hgtb
              exact of_decide_eq_true hgtb
            intro e' he'
            obtain ⟨e, he, hfe⟩ := List.mem_map.1 he'
            by_cases hpg2 : e.productGroup = pgOf r
            · have he2 : e' = mkPgEntry (pgOf r) r.komisyon := by
                rw [← hfe, if_pos hpg2]
              have hecur : e = cur := huniq e he hpg2
              subst hecur
              obtain ⟨a, rc, b, hdec, hpc, hpgc, hce, hlt, hle⟩ := ihB2 e he
              have hvc : valOr0 e.commissionPercent = valOr0 rc.komisyon := by
                rw [hce, mkPgEntry_val]
              refine ⟨l, r, [], by simp, hpass, ?_, ?_, ?_, by simp⟩
              · rw [he2, mkPgEntry_pg]
              · rw [he2]
              · intro r2 h2 hp2 hpg3
                rw [he2, mkPgEntry_pg] at hpg3
                have hr2 : valOr0 r2.komisyon ≤ valOr0 rc.komisyon := by
                  rw [hdec] at h2
                  rcases List.mem_append.1 h2 with h2 | h2
                  · exact le_of_lt (hlt r2 h2 hp2 (hpg3.trans hcurpg.symm))
                  · rcases List.mem_cons.1 h2 with h2 | h2
                    · exact le_of_eq (by rw [h2])
                    · exact hle r2 h2 hp2 (hpg3.trans hcurpg.symm)
                calc valOr0 r2.komisyon ≤ valOr0 rc.komisyon := hr2
                  _ = valOr0 e.commissionPercent := hvc.symm
                  _ < valOr0 r.komisyon := hgt
            · have he2 : e' = e := by rw [← hfe, if_neg hpg2]
              rw [he2]
              refine pgBest_extend (ihB2 e he) ?_
              intro hp hpg3
              exact absurd hpg3.symm hpg2
        · have hstep : pgStep nq (S) r = S := by
            unfold pgStep
            rw [if_neg (fun hc => hc hpass)]
            dsimp only
            rw [hlook]
            dsimp only
            rw [if_neg hgtb]
          rw [hstep]
          refine ⟨ihN, ?_, ?_⟩
          · intro pg'
            rw [ihC pg']
            constructor
            · rintro ⟨r', h1, h2⟩
              exact ⟨r', List.mem_append_left _ h1, h2⟩
            · rintro ⟨r', h1, hp', hpg'⟩
              rcases List.mem_append.1 h1 with h1 | h1
              · exact ⟨r', h1, hp', hpg'⟩
              · have h2 : r' = r := by simpa using h1
                subst h2
                obtain ⟨e, he, hepg⟩ := (ihC pg').1 ⟨cur, hcurmem, by rw [hcurpg, hpg']⟩
                exact ⟨e, he, hepg⟩
          · intro hnan
            have hnanl : ∀ r2 ∈ l, pgPass nq r2 = true → r2.komisyon ≠ PyNum.nan :=
              fun r2 h hp => hnan r2 (List.mem_append_left _ h) hp
            have ihB2 := ihB hnanl
            have hrnan : r.komisyon ≠ PyNum.nan :=
              hnan r (List.mem_append_right _ (by simp)) hpass
            have hcurnan : cur.commissionPercent ≠ PyNum.nan := by
              obtain ⟨a, rc, b, hdec, hpc, hpgc, hce, hlt2, hle2⟩ := ihB2 cur hcurmem
              rw [hce, mkPgEntry_val]
              refine hnanl rc ?_ hpc
              rw [hdec]
              exact List.mem_append_right a (List.mem_cons_self rc b)
            have hngt : ¬ valOr0 cur.commissionPercent < valOr0 r.komisyon := by
              have h2 := pyGtB_eq r.komisyon cur.commissionPercent hrnan hcurnan
              rw [h2] at hgtb
              simpa using hgtb
            intro e he
            refine pgBest_extend (ihB2 e he) ?_
            intro hp hpg3
            have hekey : e.productGroup = pgOf r := hpg3.symm
            have hecur : e = cur := huniq e he hekey
            rw [hecur]
            exact not_lt.1 hngt
    · have hstep : pgStep nq (S) r = S := by
        unfold pgStep
        rw [if_pos hpass]
      rw [hstep]
      refine ⟨ihN, ?_, ?_⟩
      · intro pg'
        rw [ihC pg']
        constructor
        · rintro ⟨r', h1, h2⟩
          exact ⟨r', List.mem_append_left _ h1, h2⟩
        · rintro ⟨r', h1, hp', hpg'⟩
          rcases List.mem_append.1 h1 with h1 | h1
          · exact ⟨r', h1, hp', hpg'⟩
          · have h2 : r' = r := by simpa using h1
            subst h2
            exact absurd hp' hpass
      · intro hnan
        have hnanl : ∀ r2 ∈ l, pgPass nq r2 = true → r2.komisyon ≠ PyNum.nan :=
          fun r2 h hp => hnan r2 (List.mem_append_left _ h) hp
        intro e he
        exact pgBest_extend (ihB hnanl e he) (fun hp _ => absurd hp hpass)

/-- C5 counterexample: the canonical-CSV loading branch
(`_load_csv_normalized`, app.py lines 499-504) runs
`pd.to_numeric(..., errors="coerce")` on the commission column after
`fillna("")`, so rows can reach `list_pg_commissions` with a NaN
commission. In Python `(nan or 0.0)` is `nan` (NaN is truthy) and every
`>` comparison against NaN is False, so a kept NaN entry is never
replaced: on the dataset [(G, NaN), (G, 15)] the method keeps the NaN
entry, not the entry with the group's maximum commission 15. -/
theorem C5_counterexample :
    list_pg_commissions [⟨"", "", "G", .nan⟩, ⟨"", "", "G", .num 15⟩] ""
      = [mkPgEntry "G" PyNum.nan] ∧
    (mkPgEntry "G" PyNum.nan).commissionPercent ≠ PyNum.num 15 ∧
    pyGtB (PyNum.num 15) PyNum.nan = false := by
  refine ⟨by with_unfolding_all rfl, ?_, rfl⟩
  rw [mkPgEntry_val]
  exact fun h => PyNum.noConfusion h

/-- C5 (amended): for every dataset and query, `list_pg_commissions`
keeps exactly one entry per non-empty product group passing the
diacritic-folded filter, and the result is sorted case-insensitively by
product-group name. Provided no passing row carries a NaN commission
(NaN blocks every replacement, since `(nan or 0.0)` is `nan` and all
comparisons with NaN are False), the kept entry comes from the first row
attaining the group's maximum commission under the code's `(val or 0.0)`
reading (a later row replaces the kept one only when strictly greater,
ties keep the first encountered), and every passing row's value is ≤ the
kept entry's; two rows with the same group and values 10 and 15 collapse
to the single entry with 15. -/
theorem C5_aggregate (rows : List Row) (q : String) :
    (list_pg_commissions rows q).Sorted pgLe ∧
    ((list_pg_commissions rows q).map (fun e => e.productGroup)).Nodup ∧
    (∀ pg : String,
      (∃ e ∈ list_pg_commissions rows q, e.productGroup = pg) ↔
      (∃ r ∈ rows, pgPass (pgQueryFold q) r = true ∧ pgOf r = pg)) ∧
    ((∀ r ∈ rows, pgPass (pgQueryFold q) r = true → r.komisyon ≠ PyNum.nan) →
      (∀ e ∈ list_pg_commissions rows q, pgBest (pgQueryFold q) rows e) ∧
      (∀ e ∈ list_pg_commissions rows q, ∀ r ∈ rows,
        pgPass (pgQueryFold q) r = true → pgOf r = e.productGroup →
        valOr0 r.komisyon ≤ valOr0 e.commissionPercent)) ∧
    list_pg_commissions [⟨"", "", "G", .num 10⟩, ⟨"", "", "G", .num 15⟩] ""
      = [mkPgEntry "G" (.num 15)] := by
  obtain ⟨hN, hC, hB⟩ := pgFold_spec (pgQueryFold q) rows
  have hperm : (list_pg_commissions rows q).Perm
      (rows.foldl (pgStep (pgQueryFold q)) []) := List.perm_insertionSort _ _
  refine ⟨List.sorted_insertionSort _ _, ?_, ?_, ?_, ?_⟩
  · exact ((hperm.map _).nodup_iff).2 hN
  · intro pg
    rw [← hC pg]
    constructor
    · rintro ⟨e, he, h2⟩
      exact ⟨e, hperm.mem_iff.1 he, h2⟩
    · rintro ⟨e, he, h2⟩
      exact ⟨e, hperm.mem_iff.2 he, h2⟩
  · intro hnan
    have hB2 := hB hnan
    constructor
    · intro e he
      exact hB2 e (hperm.mem_iff.1 he)
    · intro e he r hr hp hpg
      obtain ⟨l₁, rs, l₂, hdec, hps, hpgs, hes, hlt, hle⟩ :=
        hB2 e (hperm.mem_iff.1 he)
      have hval : valOr0 e.commissionPercent = valOr0 rs.komisyon := by
        rw [hes, mkPgEntry_val]
      rw [hval]
      rw [hdec] at hr
      rcases List.mem_append.1 hr with h | h
      · exact le_of_lt (hlt r h hp hpg)
      · rcases List.mem_cons.1 h with h | h
        · exact le_of_eq (by rw [h])
        · exact hle r h hp hpg
  · with_unfolding_all rfl

/-- C5 witness: the aggregation applied at the 10/15 dataset of the
spec, with the no-NaN hypothesis discharged at that concrete dataset. -/
theorem C5_witness :
    (∃ e ∈ list_pg_commissions [⟨"", "", "G", .num 10⟩, ⟨"", "", "G", .num 15⟩] "",
      e.productGroup = "G") ∧
    (∀ e ∈ list_pg_commissions [⟨"", "", "G", .num 10⟩, ⟨"", "", "G", .num 15⟩] "",
      pgBest (pgQueryFold "") [⟨"", "", "G", .num 10⟩, ⟨"", "", "G", .num 15⟩] e) ∧
    list_pg_commissions [⟨"", "", "G", .num 10⟩, ⟨"", "", "G", .num 15⟩] ""
      = [mkPgEntry "G" (.num 15)] := by
  refine ⟨?_, ?_,
    (C5_aggregate [⟨"", "", "G", .num 10⟩, ⟨"", "", "G", .num 15⟩] "").2.2.2.2⟩
  · apply ((C5_aggregate [⟨"", "", "G", .num 10⟩, ⟨"", "", "G", .num 15⟩] "").2.2.1 "G").2
    exact ⟨⟨"", "", "G", .num 10⟩, by simp, by decide, by decide⟩
  · exact ((C5_aggregate [⟨"", "", "G", .num 10⟩, ⟨"", "", "G", .num 15⟩] "").2.2.2.1
      (by decide)).1

/-- C3 witness: a failing reload at a concrete state, and a missing file
at a concrete state. -/
theorem C3_witness :
    (refresh_one true (.present 5 (.error "boom")) ⟨1, [⟨"K", "A", "G", .num 10⟩]⟩).1
      = ⟨1, [⟨"K", "A", "G", .num 10⟩]⟩ ∧
    (refresh_one false .missing ⟨1, [⟨"K", "A", "G", .num 10⟩]⟩).1.rows = [] :=
  ⟨(C3_refresh true 5 "boom" ⟨1, [⟨"K", "A", "G", .num 10⟩]⟩
      ⟨1, [⟨"K", "A", "G", .num 10⟩]⟩).1,
   (C3_refresh false 5 "boom" ⟨1, []⟩ ⟨1, [⟨"K", "A", "G", .num 10⟩]⟩).2⟩

/-- C8 witness: the rate-0 derivation at vatAmount 50. -/
theorem C8_witness :
    from_vat_amount 50 0 none "even" = .error .divisionByZero ∧
    (api_calc_kdv ⟨"from_vat", none, some 50, 0, none, "even"⟩).success = false :=
  C8_rate_zero 50 none "even"
